import Mathlib

/-!
Verification of the safety escalation decision engine of the Tattle-Turtle
repository: the deterministic critical-phrase detector
(src/services/criticalSafetyDetector.ts), the rolling-transcript compaction and
model-backed evaluator of the conversation-evaluator worker, the evaluator
client fail-safe path (src/services/evaluatorClient.ts) and the conversation
event emitter (src/services/conversationEventEmitter.ts).

Text is modelled as `List Char` (JS strings are sequences of UTF-16 code
units; all the code under verification treats them as sequences of
characters).  JS regular expressions are modelled by a small backtracking
engine (`RE` / `reRun`) that mirrors the ECMAScript semantics used by the
source patterns: leftmost match, alternatives tried left to right, greedy
quantifiers, word boundaries, and the rule that a quantifier iteration that
matches the empty string stops iterating.  The JS whitespace class is
modelled by its ASCII members (space, tab, newline, carriage return, vertical
tab, form feed); the inputs handled by this code contain no exotic
whitespace.  Timestamps (Date.now / toISOString) are opaque to all the logic
verified here and are threaded as parameters where the code reads the clock.
-/

set_option maxRecDepth 20000
set_option maxHeartbeats 1000000

/-- The apostrophe character (U+0027). -/
def apoC : Char := Char.ofNat 39

/-- The backtick character (U+0060), folded to an apostrophe by the
normalizers. -/
def backtickC : Char := Char.ofNat 96

/-- The right single quotation mark (U+2019), folded to an apostrophe by the
normalizers. -/
def smartQuoteC : Char := Char.ofNat 8217

/-- ASCII members of the JS regex whitespace class. -/
def isJsSpace (c : Char) : Bool :=
  c = ' ' || c = '\t' || c = '\n' || c = '\r' || c = '\x0b' || c = '\x0c'

/-- ECMAScript word character (for word boundaries): [a-zA-Z0-9_]. -/
def isWordChar (c : Char) : Bool :=
  (97 ≤ c.toNat && c.toNat ≤ 122) || (65 ≤ c.toNat && c.toNat ≤ 90) ||
    (48 ≤ c.toNat && c.toNat ≤ 57) || c = '_'

/-- JS String.prototype.toLowerCase restricted to ASCII letters (the only
letters the source feeds it). -/
def jsToLower (c : Char) : Char :=
  if 65 ≤ c.toNat && c.toNat ≤ 90 then Char.ofNat (c.toNat + 32) else c

/-- The replace of the smart right quote and the backtick by an apostrophe. -/
def foldQuote (c : Char) : Char :=
  if c = smartQuoteC || c = backtickC then apoC else c

/-- Is the character kept by the normalizers: [a-z0-9], apostrophe or
whitespace. -/
def isAllowedNorm (c : Char) : Bool :=
  (97 ≤ c.toNat && c.toNat ≤ 122) || (48 ≤ c.toNat && c.toNat ≤ 57) ||
    c = apoC || isJsSpace c

/-- The replace of every character outside [a-z0-9 apostrophe whitespace] by a
space. -/
def stripDisallowed (c : Char) : Char :=
  if isAllowedNorm c then c else ' '

/-- The three character-wise replacements of the normalizers, in source
order: toLowerCase, quote folding, stripping. -/
def premap (l : List Char) : List Char :=
  l.map (fun c => stripDisallowed (foldQuote (jsToLower c)))

/-- The replace of every maximal whitespace run by a single space
(replace of the whitespace-run regex by a space). -/
def squeezeWs : List Char → List Char
  | [] => []
  | [c] => if isJsSpace c then [' '] else [c]
  | c1 :: c2 :: rest =>
    if isJsSpace c1 && isJsSpace c2 then squeezeWs (c2 :: rest)
    else (if isJsSpace c1 then ' ' else c1) :: squeezeWs (c2 :: rest)

/-- Drop leading whitespace. -/
def trimStartWs (l : List Char) : List Char := l.dropWhile (fun c => isJsSpace c)

/-- Drop trailing whitespace. -/
def trimEndWs (l : List Char) : List Char :=
  (l.reverse.dropWhile (fun c => isJsSpace c)).reverse

/-- JS String.prototype.trim (restricted to the modelled whitespace class). -/
def jsTrim (l : List Char) : List Char := trimEndWs (trimStartWs l)

/-- normalizeText of src/services/criticalSafetyDetector.ts: lowercase, fold
quote variants to apostrophes, replace every character outside
[a-z0-9 apostrophe whitespace] by a space, collapse whitespace runs, trim. -/
def normalizeText (input : List Char) : List Char :=
  jsTrim (squeezeWs (premap input))

/-- normalizeForEvidenceMatch of the conversation-evaluator worker; its body
is character-for-character the same chain of replaces as normalizeText. -/
def normalizeForEvidenceMatch (value : List Char) : List Char :=
  jsTrim (squeezeWs (premap value))

/-- Abstract syntax of the fragment of ECMAScript regexes used by the
detector patterns: literals, character classes, the dot, word boundaries,
sequencing, alternation and the greedy star. -/
inductive RE where
  | eps : RE
  | wb : RE
  | lit : Char → RE
  | cls : List Char → RE
  | anyc : RE
  | seq : RE → RE → RE
  | alt : RE → RE → RE
  | star : RE → RE
deriving DecidableEq

/-- Does the head of the remaining input count as a word character (end of
input counts as non-word)? -/
def headIsWord : List Char → Bool
  | [] => false
  | c :: _ => isWordChar c

/-- ECMAScript word boundary: the previous and next characters lie on
different sides of the word/non-word split. -/
def atBoundary (pw : Bool) (s : List Char) : Bool := pw != headIsWord s

/-- Line terminators which the ECMAScript dot does not match. -/
def isLineTerm (c : Char) : Bool :=
  c = '\n' || c = '\r' || c = Char.ofNat 8232 || c = Char.ofNat 8233

/-- Greedy-star iteration loop: `runA` matches one iteration of the starred
body; an iteration that consumes nothing stops the iteration (as in
ECMAScript); `fuel` bounds the number of iterations and is harmless once it
is at least the input length, because every counted iteration consumes at
least one character. -/
def reStarLoop
    (runA : List Char → Bool → (List Char → Bool → Option Nat) → Option Nat) :
    Nat → List Char → Bool → (List Char → Bool → Option Nat) → Option Nat
  | 0, s, pw, k => k s pw
  | f + 1, s, pw, k =>
    match runA s pw (fun s1 pw1 =>
        if s1.length < s.length then reStarLoop runA f s1 pw1 k else none) with
    | some n => some n
    | none => k s pw

/-- Backtracking matcher in continuation-passing style.  `pw` is whether the
character before the current position is a word character.  The continuation
receives the remaining input and the updated `pw` and returns the first
success in backtracking order.  Alternatives are tried left first and the
star is greedy. -/
def reRun (fuel : Nat) : RE → List Char → Bool →
    (List Char → Bool → Option Nat) → Option Nat
  | .eps, s, pw, k => k s pw
  | .wb, s, pw, k => if atBoundary pw s then k s pw else none
  | .lit c, s, _pw, k =>
    match s with
    | [] => none
    | x :: xs => if x = c then k xs (isWordChar x) else none
  | .cls cs, s, _pw, k =>
    match s with
    | [] => none
    | x :: xs => if cs.contains x then k xs (isWordChar x) else none
  | .anyc, s, _pw, k =>
    match s with
    | [] => none
    | x :: xs => if isLineTerm x then none else k xs (isWordChar x)
  | .seq a b, s, pw, k => reRun fuel a s pw (fun s1 pw1 => reRun fuel b s1 pw1 k)
  | .alt a b, s, pw, k =>
    match reRun fuel a s pw k with
    | some n => some n
    | none => reRun fuel b s pw k
  | .star a, s, pw, k =>
    reStarLoop (fun s1 pw1 k1 => reRun fuel a s1 pw1 k1) fuel s pw k

/-- Fuel that is always sufficient for the detector patterns on the given
input. -/
def reFuel (s : List Char) : Nat := s.length + 200

/-- Try to match the pattern at the start of `s`: on success return the
matched characters (the JS hit[0] for a match at this position). -/
def reTryAt (r : RE) (s : List Char) (pw : Bool) : Option (List Char) :=
  match reRun (reFuel s) r s pw (fun t _ => some t.length) with
  | some remLen => some (s.take (s.length - remLen))
  | none => none

/-- JS String.prototype.match for a non-global pattern: try each start
position left to right and return the first match. -/
def reSearchFrom (r : RE) (s : List Char) (pw : Bool) : Option (List Char) :=
  match reTryAt r s pw with
  | some m => some m
  | none =>
    match s with
    | [] => none
    | c :: rest => reSearchFrom r rest (isWordChar c)

/-- Sequence a list of regexes. -/
def rcat : List RE → RE
  | [] => RE.eps
  | [r] => r
  | r :: rest => RE.seq r (rcat rest)

/-- Alternation of a list of regexes, tried left to right. -/
def ralts : List RE → RE
  | [] => RE.cls []
  | [r] => r
  | r :: rest => RE.alt r (ralts rest)

/-- Literal string. -/
def rstr (s : String) : RE := rcat (s.data.map RE.lit)

/-- The whitespace character class of the patterns. -/
def wsCls : RE := RE.cls [' ', '\t', '\n', '\r', '\x0b', '\x0c']

/-- Greedy whitespace star of the patterns. -/
def wss : RE := RE.star wsCls

/-- Greedy option. -/
def ropt (r : RE) : RE := RE.alt r RE.eps

/-- Literal apostrophe. -/
def rapo : RE := RE.lit apoC

/-- Words joined by whitespace stars, as the patterns write multiword
phrases. -/
def rjoinW : List String → RE
  | [] => RE.eps
  | [s] => rstr s
  | s :: rest => RE.seq (rstr s) (RE.seq wss (rjoinW rest))

/-- The intent alternatives of the first self-harm pattern. -/
def shVerbAlts : RE := ralts [rstr "going to", rstr "gonna", rstr "will",
  rcat [rstr "plan", ropt (rstr "ning"), rstr " to"], rstr "want to",
  rstr "wanna", rstr "need to", rstr "might", rstr "could", rstr "should",
  rstr "feel like", rstr "thinking about", rstr "thought about",
  rstr "thought of", rstr "trying to", rstr "tried to",
  rcat [rstr "attempt", ropt (ralts [rstr "ed", rstr "ing"]), rstr " to"]]

/-- The target alternatives of the first self-harm pattern. -/
def shTargets1 : RE := ralts [rjoinW ["kill", "my", "self"],
  rjoinW ["kill", "myself"], rjoinW ["hurt", "my", "self"],
  rjoinW ["hurt", "myself"], rjoinW ["harm", "my", "self"],
  rjoinW ["harm", "myself"], rjoinW ["cut", "my", "self"],
  rjoinW ["cut", "myself"], rjoinW ["end", "my", "life"],
  rjoinW ["take", "my", "life"], rstr "die", rjoinW ["commit", "suicide"],
  rjoinW ["do", "suicide"], rstr "overdose", rjoinW ["hang", "my", "self"],
  rjoinW ["hang", "myself"], rjoinW ["jump", "off"],
  rjoinW ["shoot", "my", "self"], rjoinW ["shoot", "myself"],
  rjoinW ["poison", "my", "self"], rjoinW ["poison", "myself"], rstr "kms"]

/-- First self-harm pattern of SELF_HARM_PATTERNS. -/
def selfHarm1 : RE := rcat [RE.wb, rstr "i", wss,
  ropt (ralts [rstr "am", rcat [rapo, rstr "m"]]), wss, shVerbAlts, wss,
  shTargets1, RE.wb]

/-- Second self-harm pattern. -/
def selfHarm2 : RE := rcat [RE.wb, rstr "i", wss,
  ralts [rstr "have", rstr "had"], wss, ropt (RE.seq (rstr "a") wss),
  rstr "plan", wss, ralts [rstr "to", rstr "for"], wss,
  ralts [rjoinW ["kill", "my", "self"], rjoinW ["kill", "myself"],
    rjoinW ["hurt", "my", "self"], rjoinW ["hurt", "myself"],
    rjoinW ["harm", "my", "self"], rjoinW ["harm", "myself"],
    rjoinW ["end", "my", "life"], rstr "suicide", rstr "overdose",
    rjoinW ["jump", "off"], rjoinW ["hang", "my", "self"],
    rjoinW ["hang", "myself"], rstr "kms"], RE.wb]

/-- Third self-harm pattern. -/
def selfHarm3 : RE := rcat [RE.wb, rstr "i", wss,
  ralts [rstr "tried", rstr "attempted"], wss, rstr "to", wss,
  ralts [rjoinW ["kill", "my", "self"], rjoinW ["kill", "myself"],
    rjoinW ["hurt", "my", "self"], rjoinW ["hurt", "myself"],
    rjoinW ["harm", "my", "self"], rjoinW ["harm", "myself"],
    rjoinW ["end", "my", "life"], rjoinW ["commit", "suicide"],
    rstr "overdose", rstr "kms"], RE.wb]

/-- Fourth self-harm pattern. -/
def selfHarm4 : RE := rcat [RE.wb, rstr "i", wss,
  ralts [rjoinW ["do", "not"], rcat [rstr "don", rapo, rstr "t"]], wss,
  rstr "want", wss, rstr "to", wss, ralts [rstr "live", rstr "be alive"],
  RE.wb]

/-- Fifth self-harm pattern. -/
def selfHarm5 : RE := rcat [RE.wb, rstr "i", wss,
  ralts [rstr "want to", rstr "wanna"], wss,
  ralts [rstr "die", rstr "be dead", rstr "stop living", rstr "not be alive"],
  RE.wb]

/-- Sixth self-harm pattern. -/
def selfHarm6 : RE := rcat [RE.wb, rstr "i", wss, rstr "wish", wss, rstr "i",
  wss, ralts [rstr "was", rstr "were"], wss, rstr "dead", RE.wb]

/-- Seventh self-harm pattern. -/
def selfHarm7 : RE := rcat [RE.wb,
  rjoinW ["everyone", "would", "be", "better", "off", "without", "me"], RE.wb]

/-- Eighth self-harm pattern. -/
def selfHarm8 : RE := rcat [RE.wb,
  ralts [rstr "thinking", rcat [rstr "thought", ropt (rstr "s")]], wss,
  ralts [rstr "about", rstr "of"], wss,
  ralts [rstr "suicide", rjoinW ["killing", "my", "self"],
    rjoinW ["killing", "myself"], rjoinW ["hurting", "my", "self"],
    rjoinW ["hurting", "myself"], rjoinW ["harming", "my", "self"],
    rjoinW ["harming", "myself"], rjoinW ["ending", "my", "life"],
    rstr "kms"], RE.wb]

/-- Ninth self-harm pattern. -/
def selfHarm9 : RE := rcat [RE.wb, rstr "i", wss,
  ralts [rstr "am", rcat [rapo, rstr "m"]], wss,
  ralts [rstr "suicidal", rstr "having suicidal thoughts"], RE.wb]

/-- SELF_HARM_PATTERNS, in declared order. -/
def SELF_HARM_PATTERNS : List RE := [selfHarm1, selfHarm2, selfHarm3,
  selfHarm4, selfHarm5, selfHarm6, selfHarm7, selfHarm8, selfHarm9]

/-- The (?:i|we) subject of the illegal-harm patterns. -/
def ihSubject : RE := ralts [rstr "i", rstr "we"]

/-- The optional verb-to-be of the illegal-harm patterns. -/
def ihBeAux : RE := ropt (ralts [rstr "am", rcat [rapo, rstr "m"], rstr "are",
  rcat [rapo, rstr "re"]])

/-- The intent alternatives of the illegal-harm patterns. -/
def ihIntent : RE := ralts [rstr "going to", rstr "gonna", rstr "will",
  rcat [rstr "plan", ropt (rstr "ning"), rstr " to"], rstr "want to",
  rstr "wanna"]

/-- The object alternatives of the first illegal-harm pattern. -/
def ihObjects : RE := ralts [rstr "him", rstr "her", rstr "them",
  rstr "someone", rstr "a kid", rstr "my teacher", rstr "people", rstr "kids"]

/-- The weapon alternatives of the illegal-harm patterns. -/
def ihWeapons : RE := ralts [rstr "gun", rstr "knife", rstr "weapon",
  rstr "bomb"]

/-- First illegal-harm pattern of ILLEGAL_HARM_PATTERNS. -/
def illegal1 : RE := rcat [RE.wb, ihSubject, wss, ihBeAux, wss, ihIntent, wss,
  ralts [rstr "stab", rstr "shoot", rstr "kill", rstr "jump", rstr "attack",
    rstr "bomb", rstr "burn", rjoinW ["set", "fire", "to"], rstr "poison",
    rstr "kidnap", rjoinW ["beat", "up"],
    rcat [rstr "beat", wss, ihObjects, wss, rstr "up"]], wss, ropt ihObjects,
  RE.wb]

/-- Second illegal-harm pattern. -/
def illegal2 : RE := rcat [RE.wb, ihSubject, wss, ihBeAux, wss, ihIntent, wss,
  ralts [rstr "bring", rstr "carry", rstr "use", rstr "take"], wss,
  ropt (RE.seq (rstr "a") wss), ihWeapons, wss,
  ropt (ralts [rstr "to", rstr "at"]), wss,
  ropt (ralts [rstr "school", rstr "class", rstr "campus"]), RE.wb]

/-- Third illegal-harm pattern. -/
def illegal3 : RE := rcat [RE.wb, ihSubject, wss,
  ralts [rstr "brought", rstr "bringing", rstr "have", rstr "got"], wss,
  ropt (RE.seq (rstr "a") wss), ihWeapons, RE.wb, RE.star RE.anyc, RE.wb,
  ralts [rstr "shoot", rstr "stab", rstr "kill", rstr "hurt", rstr "attack",
    rstr "bomb"], RE.wb]

/-- Fourth illegal-harm pattern. -/
def illegal4 : RE := rcat [RE.wb, ihSubject, wss, ihBeAux, wss, ihIntent, wss,
  ralts [rjoinW ["break", "the", "law"], rjoinW ["break", "the", "constitution"],
    rjoinW ["do", "something", "illegal"], rjoinW ["commit", "a", "crime"],
    rstr "rob", rjoinW ["steal", "from"], rjoinW ["burn", "down"],
    rjoinW ["set", "fire", "to"], rjoinW ["sell", "drugs"],
    rjoinW ["deal", "drugs"]], RE.wb]

/-- ILLEGAL_HARM_PATTERNS, in declared order. -/
def ILLEGAL_HARM_PATTERNS : List RE := [illegal1, illegal2, illegal3, illegal4]

/-- CriticalSafetyReasonCode of src/services/criticalSafetyDetector.ts. -/
inductive CriticalSafetyReasonCode where
  | self_harm_intent_or_plan : CriticalSafetyReasonCode
  | serious_illegal_harm_intent_or_plan : CriticalSafetyReasonCode
deriving DecidableEq

/-- The snake_case token of a reason code. -/
def rcStr : CriticalSafetyReasonCode → List Char
  | .self_harm_intent_or_plan => "self_harm_intent_or_plan".data
  | .serious_illegal_harm_intent_or_plan =>
    "serious_illegal_harm_intent_or_plan".data

/-- CriticalSafetyMatch of src/services/criticalSafetyDetector.ts. -/
structure CriticalSafetyMatch where
  matched : Bool
  reasonCode : Option CriticalSafetyReasonCode
  evidenceQuote : Option (List Char)
deriving DecidableEq

/-- The inner loop of the detector over one rule's patterns: the first
pattern whose match (hit[0]) is non-empty wins; a pattern whose first match
is empty or absent is passed over. -/
def firstPatternHit : List RE → List Char → Option (List Char)
  | [], _ => none
  | p :: ps, src =>
    match reSearchFrom p src false with
    | some m => if m = [] then firstPatternHit ps src else some m
    | none => firstPatternHit ps src

/-- TRIGGER_RULES of src/services/criticalSafetyDetector.ts, in declared
order: the self-harm group before the illegal-harm group. -/
def TRIGGER_RULES : List (CriticalSafetyReasonCode × List RE) :=
  [(.self_harm_intent_or_plan, SELF_HARM_PATTERNS),
   (.serious_illegal_harm_intent_or_plan, ILLEGAL_HARM_PATTERNS)]

/-- The outer loop of the detector over the rules. -/
def firstRuleHit : List (CriticalSafetyReasonCode × List RE) → List Char →
    Option (CriticalSafetyReasonCode × List Char)
  | [], _ => none
  | (rc, ps) :: rest, src =>
    match firstPatternHit ps src with
    | some m => some (rc, m)
    | none => firstRuleHit rest src

/-- detectCriticalTeacherRequiredEvidence of
src/services/criticalSafetyDetector.ts. -/
def detectCriticalTeacherRequiredEvidence (text : List Char) :
    CriticalSafetyMatch :=
  let source := normalizeText text
  if source = [] then ⟨false, none, none⟩
  else
    match firstRuleHit TRIGGER_RULES source with
    | some (rc, m) => ⟨true, some rc, some (m.take 220)⟩
    | none => ⟨false, none, none⟩

/-- SafetyOutcome of src/types (part_006). -/
inductive SafetyOutcome where
  | GREEN : SafetyOutcome
  | TEACHER_REQUIRED : SafetyOutcome
deriving DecidableEq

/-- Transcript roles of the worker TranscriptTurn type. -/
inductive TurnRole where
  | Student : TurnRole
  | Turtle : TurnRole
  | System : TurnRole
deriving DecidableEq

/-- TranscriptTurn of the conversation-evaluator worker. -/
structure TranscriptTurn where
  role : TurnRole
  text : List Char
deriving DecidableEq

/-- The reduce of the worker computing the total text length of a
transcript. -/
def totalTextLen (turns : List TranscriptTurn) : Nat :=
  turns.foldl (fun sum turn => sum + turn.text.length) 0

/-- The eviction while-loop of compactTranscript: drop turns from the front
while more than one turn remains and the total exceeds the limit. -/
def compactLoop (limit : Nat) : List TranscriptTurn → List TranscriptTurn
  | [] => []
  | [t] => [t]
  | t :: u :: rest =>
    if limit < totalTextLen (t :: u :: rest) then compactLoop limit (u :: rest)
    else t :: u :: rest

/-- JS String.prototype.slice(-n) for n > 0: the trailing n characters. -/
def sliceLast (n : Nat) (s : List Char) : List Char := s.drop (s.length - n)

/-- compactTranscript of the conversation-evaluator worker. -/
def compactTranscript (turns : List TranscriptTurn) (limit : Int) :
    List TranscriptTurn :=
  if limit ≤ 0 then turns
  else if (totalTextLen turns : Int) ≤ limit then turns
  else
    match compactLoop limit.toNat turns with
    | [t] =>
      if limit < (t.text.length : Int) then [⟨t.role, sliceLast limit.toNat t.text⟩]
      else [t]
    | other => other

/-- Event types of ConversationEvent. -/
inductive ConversationEventType where
  | SESSION_START : ConversationEventType
  | STUDENT_UTTERANCE : ConversationEventType
  | MODEL_UTTERANCE : ConversationEventType
  | SESSION_END : ConversationEventType
  | MANUAL_TEACHER_REQUEST : ConversationEventType
deriving DecidableEq

/-- Provenance roles of ConversationEvent. -/
inductive EventRole where
  | SYSTEM : EventRole
  | STUDENT : EventRole
  | MODEL : EventRole
deriving DecidableEq

/-- ConversationEvent of src/types (part_006).  The timestamp field is
omitted: no code under verification ever reads it. -/
structure ConversationEvent where
  type : ConversationEventType
  role : EventRole
  studentId : List Char
  conversationId : List Char
  utteranceId : Nat
  text : Option (List Char)
deriving DecidableEq

/-- SafetyDecision of src/types (part_006).  JS numbers are modelled as
rationals; the decisions built by the verified code only carry exact decimal
values. -/
structure SafetyDecision where
  studentId : List Char
  conversationId : List Char
  utteranceId : Nat
  safetyOutcome : SafetyOutcome
  teacherNotifyNow : Bool
  shouldEndConversation : Bool
  reasonCode : List Char
  confidence : ℚ
  latencyMs : Option Nat
  studentNotice : Option (List Char)
  teacherNotice : Option (List Char)
deriving DecidableEq

/-- EvaluatorPolicyConfig of src/types (part_006). -/
structure EvaluatorPolicyConfig where
  rollingWindowLimit : Int
  responseTimeoutMs : Nat
  model : List Char
  failSafeOutcome : SafetyOutcome
deriving DecidableEq

/-- EVALUATOR_POLICY of the evaluator policy module (App.tsx bundle). -/
def EVALUATOR_POLICY : EvaluatorPolicyConfig :=
  ⟨4000, 12000, "gemini-2.5-flash".data, .GREEN⟩

/-- WorkerState of the conversation-evaluator worker. -/
structure WorkerState where
  studentId : List Char
  transcript : List TranscriptTurn
deriving DecidableEq

/-- toSafetyOutcome of the worker. -/
def toSafetyOutcome (value : List Char) : SafetyOutcome :=
  if value = "TEACHER_REQUIRED".data then .TEACHER_REQUIRED else .GREEN

/-- normalizeConfidence of the worker: a value that does not coerce to a
finite number (modelled by none) becomes 0.5, everything else is clamped to
[0, 1]. -/
def normalizeConfidence (value : Option ℚ) : ℚ :=
  match value with
  | none => 1 / 2
  | some num => max 0 (min 1 num)

/-- The JS idiom `x || dflt` for an optional string: absent and empty both
fall back to the default. -/
def jsOrStr (v : Option (List Char)) (dflt : List Char) : List Char :=
  match v with
  | none => dflt
  | some s => if s = [] then dflt else s

/-- baseDecision of the worker. -/
def baseDecision (event : ConversationEvent) (outcome : SafetyOutcome)
    (reasonCode : List Char) : SafetyDecision :=
  { studentId := event.studentId
    conversationId := event.conversationId
    utteranceId := event.utteranceId
    safetyOutcome := outcome
    teacherNotifyNow := outcome == .TEACHER_REQUIRED
    shouldEndConversation := false
    reasonCode := reasonCode
    confidence := 1
    latencyMs := none
    studentNotice :=
      if outcome == .TEACHER_REQUIRED
      then some "Teacher has been notified to check in privately.".data
      else none
    teacherNotice :=
      if outcome == .TEACHER_REQUIRED
      then some "Immediate teacher check-in required.".data
      else none }

/-- The rendering of a transcript role name. -/
def renderRole : TurnRole → List Char
  | .Student => "Student".data
  | .Turtle => "Turtle".data
  | .System => "System".data

/-- JS Array.prototype.join with a newline separator. -/
def joinNl : List (List Char) → List Char
  | [] => []
  | [t] => t
  | t :: rest => t ++ '\n' :: joinNl rest

/-- renderTranscript of the worker: one "Role: text" line per turn. -/
def renderTranscript (turns : List TranscriptTurn) : List Char :=
  joinNl (turns.map (fun turn => renderRole turn.role ++ ':' :: ' ' :: turn.text))

/-- mapEventRole of the worker. -/
def mapEventRole (event : ConversationEvent) : TurnRole :=
  if event.role = .STUDENT then .Student
  else if event.role = .MODEL then .Turtle
  else .System

/-- modelUnavailableDecision of the worker; `elapsed` is the measured
Date.now() - startedAt. -/
def modelUnavailableDecision (event : ConversationEvent) (elapsed : Nat)
    (reasonCode : List Char) : SafetyDecision :=
  { studentId := event.studentId
    conversationId := event.conversationId
    utteranceId := event.utteranceId
    safetyOutcome := .GREEN
    teacherNotifyNow := false
    shouldEndConversation := false
    reasonCode := reasonCode
    confidence := 35 / 100
    latencyMs := some elapsed
    studentNotice := none
    teacherNotice := none }

/-- The fields of the model response after JSON.parse, with the JS-level
coercions the worker applies made explicit: an absent string field is none
(the empty string is some []); shouldEndConversation is already
Boolean-coerced; confidence is none when the JSON value does not coerce to a
finite number. -/
structure ParsedFields where
  safetyOutcome : Option (List Char)
  shouldEndConversation : Bool
  reasonCode : Option (List Char)
  confidence : Option ℚ
  evidenceQuote : Option (List Char)
  studentNotice : Option (List Char)
  teacherNotice : Option (List Char)
deriving DecidableEq

/-- Outcome of the external model call: the generateContent promise threw, or
the response text failed JSON.parse, or it parsed into the given fields. -/
inductive ModelResponse where
  | callFailed : ModelResponse
  | invalidJson : ModelResponse
  | parsed : ParsedFields → ModelResponse
deriving DecidableEq

/-- JS String.prototype.includes: does the needle occur as a contiguous
substring of the haystack? -/
def jsIncludes (hay needle : List Char) : Bool :=
  match hay with
  | [] => needle.isEmpty
  | _ :: rest => needle.isPrefixOf hay || jsIncludes rest needle

/-- teacherRequiredReasonCodes of evaluateWithModel. -/
def teacherRequiredReasonCodes : List (List Char) :=
  ["self_harm_intent_or_plan".data, "serious_illegal_harm_intent_or_plan".data]

/-- evaluateWithModel of the conversation-evaluator worker.  The external
model call and the clock are oracles: `resp` is what the call produced and
`elapsed` the measured latency. -/
def evaluateWithModel (event : ConversationEvent) (state : WorkerState)
    (resp : ModelResponse) (elapsed : Nat) : SafetyDecision :=
  match resp with
  | .callFailed =>
    modelUnavailableDecision event elapsed
      "model_unavailable_deterministic_only".data
  | .invalidJson =>
    modelUnavailableDecision event elapsed "model_invalid_response".data
  | .parsed parsed =>
    let transcript := renderTranscript state.transcript
    let latestStudentUtterance := jsOrStr event.text []
    let safetyOutcome0 := toSafetyOutcome (jsOrStr parsed.safetyOutcome "GREEN".data)
    let shouldEndConversation := parsed.shouldEndConversation
    let reasonCode0 := jsOrStr parsed.reasonCode "model_decision".data
    let evidenceQuote := jsTrim (jsOrStr parsed.evidenceQuote [])
    let sourceText :=
      normalizeForEvidenceMatch (latestStudentUtterance ++ '\n' :: transcript)
    let normalizedEvidenceQuote := normalizeForEvidenceMatch evidenceQuote
    let hasEvidenceQuote := decide (6 ≤ normalizedEvidenceQuote.length) &&
      jsIncludes sourceText normalizedEvidenceQuote
    let confidence := normalizeConfidence parsed.confidence
    let criticalMatch := detectCriticalTeacherRequiredEvidence
      (latestStudentUtterance ++ '\n' :: transcript)
    let downgrade := safetyOutcome0 == .TEACHER_REQUIRED &&
      (!(teacherRequiredReasonCodes.contains reasonCode0) ||
        (!hasEvidenceQuote && !criticalMatch.matched))
    let safetyOutcome := if downgrade then SafetyOutcome.GREEN else safetyOutcome0
    let reasonCode :=
      if downgrade then "insufficient_teacher_required_evidence".data
      else reasonCode0
    { studentId := event.studentId
      conversationId := event.conversationId
      utteranceId := event.utteranceId
      safetyOutcome := safetyOutcome
      teacherNotifyNow := safetyOutcome == .TEACHER_REQUIRED
      shouldEndConversation := shouldEndConversation
      reasonCode := reasonCode
      confidence := confidence
      latencyMs := some elapsed
      studentNotice := parsed.studentNotice
      teacherNotice := parsed.teacherNotice }

/-- The stateByConversation map, as an association list in insertion
order. -/
def ConvMap : Type := List (List Char × WorkerState)

/-- Map.prototype.get. -/
def mapGet (m : ConvMap) (key : List Char) : Option WorkerState :=
  match List.find? (fun kv => kv.1 == key) m with
  | some kv => some kv.2
  | none => none

/-- Map.prototype.set: replace in place, or append. -/
def mapSet (m : ConvMap) (key : List Char) (st : WorkerState) : ConvMap :=
  match List.find? (fun kv => kv.1 == key) m with
  | some _ =>
    List.map (fun kv => if kv.1 == key then (key, st) else kv) m
  | none => List.append m [(key, st)]

/-- The teacher notice of the worker's deterministic hard-trigger branch. -/
def criticalTeacherNotice (evidenceQuote : Option (List Char)) : List Char :=
  match evidenceQuote with
  | some q =>
    if q = [] then "Critical safety statement detected.".data
    else "Critical safety statement detected: \"".data ++ q ++ "\".".data
  | none => "Critical safety statement detected.".data

/-- evaluateEvent of the conversation-evaluator worker, returning the
decision and the updated per-conversation state map. -/
def evaluateEvent (m : ConvMap) (event : ConversationEvent)
    (resp : ModelResponse) (elapsed : Nat) : SafetyDecision × ConvMap :=
  let existing := (mapGet m event.conversationId).getD ⟨event.studentId, []⟩
  if event.type = .SESSION_START then
    (baseDecision event .GREEN "session_start".data,
     mapSet m event.conversationId existing)
  else if event.type = .SESSION_END then
    ({ baseDecision event .GREEN "session_end".data with
       shouldEndConversation := true }, m)
  else if event.type = .MANUAL_TEACHER_REQUEST then
    (baseDecision event .TEACHER_REQUIRED "manual_teacher_request".data, m)
  else
    let text := (event.text.map jsTrim).getD []
    let existing1 :=
      if text = [] then existing
      else { existing with
        transcript := compactTranscript
          (existing.transcript ++ [⟨mapEventRole event, text⟩])
          EVALUATOR_POLICY.rollingWindowLimit }
    let m1 := mapSet m event.conversationId existing1
    if event.type = .MODEL_UTTERANCE then
      (baseDecision event .GREEN "model_context_update".data, m1)
    else
      let combinedStudentText := joinNl
        ((existing1.transcript.filter (fun turn => turn.role == .Student)).map
          (fun turn => turn.text))
      let criticalMatch := detectCriticalTeacherRequiredEvidence
        (jsTrim (jsOrStr event.text [] ++ '\n' :: combinedStudentText))
      match criticalMatch.matched, criticalMatch.reasonCode with
      | true, some rc =>
        ({ studentId := event.studentId
           conversationId := event.conversationId
           utteranceId := event.utteranceId
           safetyOutcome := .TEACHER_REQUIRED
           teacherNotifyNow := true
           shouldEndConversation := true
           reasonCode := rcStr rc
           confidence := 1
           latencyMs := none
           studentNotice :=
             some "Teacher has been notified to check in privately.".data
           teacherNotice := some (criticalTeacherNotice criticalMatch.evidenceQuote) },
         m1)
      | _, _ => (evaluateWithModel event existing1 resp elapsed, m1)

/-- The fields of an EvaluatorClient instance that the failure path reads or
writes: the worker handle, the armed response timeout, the terminal failed
flag and the last emitted event. -/
structure ClientState where
  hasWorker : Bool
  timeoutArmed : Bool
  failed : Bool
  lastEvent : Option ConversationEvent
deriving DecidableEq

/-- The two callbacks of the Evaluator Client, recorded as emitted outputs:
onDecision and onFailure. -/
inductive ClientOutput where
  | decision : SafetyDecision → ClientOutput
  | failure : List Char → ClientOutput
deriving DecidableEq

/-- The fail-safe SafetyDecision synthesized by
EvaluatorClient.handleFailure; `now` is the Date.now() used for the fallback
conversation id when no event was ever emitted. -/
def failSafeDecision (lastEvent : Option ConversationEvent)
    (reason : List Char) (now : Nat) : SafetyDecision :=
  let fallbackConversationId := jsOrStr (lastEvent.map (fun e => e.conversationId))
    ("fallback-".data ++ (toString now).data)
  let fallbackStudentId := jsOrStr (lastEvent.map (fun e => e.studentId))
    "unknown-student".data
  let fallbackUtteranceId := (lastEvent.map (fun e => e.utteranceId)).getD 0
  let criticalMatch := detectCriticalTeacherRequiredEvidence
    (jsOrStr (lastEvent.bind (fun e => e.text)) [])
  let matchedRc : Option CriticalSafetyReasonCode :=
    if criticalMatch.matched then criticalMatch.reasonCode else none
  let failSafeOutcome : SafetyOutcome :=
    match matchedRc with
    | some _ => .TEACHER_REQUIRED
    | none => EVALUATOR_POLICY.failSafeOutcome
  { studentId := fallbackStudentId
    conversationId := fallbackConversationId
    utteranceId := fallbackUtteranceId
    safetyOutcome := failSafeOutcome
    teacherNotifyNow := failSafeOutcome == .TEACHER_REQUIRED
    shouldEndConversation := failSafeOutcome == .TEACHER_REQUIRED
    reasonCode :=
      match matchedRc with
      | some rc => rcStr rc
      | none => "evaluator_failure".data
    confidence := 1
    latencyMs := none
    studentNotice := some
      (if failSafeOutcome == .TEACHER_REQUIRED
       then "Teacher has been notified to check in privately.".data
       else "Safety evaluator is temporarily unavailable. Turtle will keep listening.".data)
    teacherNotice :=
      if failSafeOutcome == .TEACHER_REQUIRED
      then some
        (match criticalMatch.evidenceQuote with
         | some q =>
           if q = [] then reason
           else "Critical safety statement detected: \"".data ++ q ++ "\".".data
         | none => reason)
      else none }

/-- EvaluatorClient.handleFailure: a no-op once failed; on the first failure
it marks the state FAILED, clears the timeout, terminates the worker, and
invokes onDecision with the fail-safe decision followed by onFailure with
the reason. -/
def handleFailure (st : ClientState) (reason : List Char) (now : Nat) :
    ClientState × List ClientOutput :=
  if st.failed then (st, [])
  else
    ({ st with failed := true, timeoutArmed := false, hasWorker := false },
     [.decision (failSafeDecision st.lastEvent reason now), .failure reason])

/-- The failure triggers that reach handleFailure: a WORKER_ERROR message, a
worker crash (onerror), the response-timeout callback, and a worker
construction failure during init. -/
inductive FailTrigger where
  | workerErrorMsg : Option (List Char) → FailTrigger
  | workerCrash : Option (List Char) → FailTrigger
  | timeoutExpiry : FailTrigger
  | initFailure : List Char → FailTrigger
deriving DecidableEq

/-- The reason string each trigger passes to handleFailure. -/
def triggerReason : FailTrigger → List Char
  | .workerErrorMsg details =>
    "Evaluator worker error: ".data ++ jsOrStr details "unknown error".data
  | .workerCrash message =>
    "Evaluator worker crashed: ".data ++ jsOrStr message "unknown worker crash".data
  | .timeoutExpiry =>
    "Evaluator worker timeout. Triggering fail-safe escalation.".data
  | .initFailure err =>
    "Evaluator worker failed to initialize: ".data ++ err

/-- A sequence of failure triggers hitting one client instance, with the
outputs of all of them concatenated. -/
def runFailureTriggers (st : ClientState) (trigs : List FailTrigger)
    (now : Nat) : ClientState × List ClientOutput :=
  match trigs with
  | [] => (st, [])
  | t :: rest =>
    let step := handleFailure st (triggerReason t) now
    let tail := runFailureTriggers step.1 rest now
    (tail.1, step.2 ++ tail.2)

/-- The internal state of a ConversationEventEmitter. -/
structure EmitterState where
  conversationId : List Char
  utteranceId : Nat
deriving DecidableEq

/-- newConversationId of src/services/conversationEventEmitter.ts; Date.now
and the random suffix are parameters. -/
def newConversationId (studentId : List Char) (now : Nat)
    (randSuffix : List Char) : List Char :=
  studentId ++ '-' :: (toString now).data ++ '-' :: randSuffix

/-- One method call on a ConversationEventEmitter; startSession carries the
clock value and random suffix its conversation id is built from. -/
inductive EmitterCall where
  | startSession : List Char → Nat → List Char → EmitterCall
  | studentUtterance : List Char → List Char → EmitterCall
  | modelUtterance : List Char → List Char → EmitterCall
  | manualTeacherRequest : List Char → List Char → EmitterCall
  | endSession : List Char → EmitterCall
deriving DecidableEq

/-- One method call of the emitter: the new state and the returned event. -/
def emitterStep (st : EmitterState) :
    EmitterCall → EmitterState × ConversationEvent
  | .startSession sid now rand =>
    let cid := newConversationId sid now rand
    (⟨cid, 0⟩, ⟨.SESSION_START, .SYSTEM, sid, cid, 0, none⟩)
  | .studentUtterance sid text =>
    let uid := st.utteranceId + 1
    (⟨st.conversationId, uid⟩,
     ⟨.STUDENT_UTTERANCE, .STUDENT, sid, st.conversationId, uid, some text⟩)
  | .modelUtterance sid text =>
    let uid := st.utteranceId + 1
    (⟨st.conversationId, uid⟩,
     ⟨.MODEL_UTTERANCE, .MODEL, sid, st.conversationId, uid, some text⟩)
  | .manualTeacherRequest sid text =>
    let uid := st.utteranceId + 1
    (⟨st.conversationId, uid⟩,
     ⟨.MANUAL_TEACHER_REQUEST, .STUDENT, sid, st.conversationId, uid, some text⟩)
  | .endSession sid =>
    let uid := st.utteranceId + 1
    (⟨st.conversationId, uid⟩,
     ⟨.SESSION_END, .SYSTEM, sid, st.conversationId, uid, none⟩)

/-- The events returned by a sequence of emitter method calls. -/
def emitterTrace (st : EmitterState) : List EmitterCall → List ConversationEvent
  | [] => []
  | c :: cs =>
    let step := emitterStep st c
    step.2 :: emitterTrace step.1 cs

/-- Syntactic criterion: every match of the regex consumes at least one
character.  All detector patterns satisfy it (each contains a mandatory
literal). -/
def needsChar : RE → Bool
  | .eps => false
  | .wb => false
  | .lit _ => true
  | .cls _ => true
  | .anyc => true
  | .seq a b => needsChar a || needsChar b
  | .alt a b => needsChar a && needsChar b
  | .star _ => false

/-- The maximal whitespace-free runs of a character list, in order. -/
def splitWs : List Char → List (List Char)
  | [] => []
  | c :: rest =>
    if isJsSpace c then splitWs rest
    else (c :: rest.takeWhile (fun d => !isJsSpace d)) ::
      splitWs (rest.dropWhile (fun d => !isJsSpace d))
termination_by l => l.length
decreasing_by
  simp_wf
  rename_i tl _
  have h : (List.dropWhile (fun d => !isJsSpace d) tl).length ≤ tl.length :=
    (List.dropWhile_sublist _).length_le
  simp only [List.length_cons]
  omega

/-- Join words with single spaces. -/
def spaceJoin : List (List Char) → List Char
  | [] => []
  | [w] => w
  | w :: rest => w ++ ' ' :: spaceJoin rest

/-- The word/non-word classification of the character preceding a position
described as `u ++ rest`, where `pw` classifies the character before `u`. -/
def prevW (pw : Bool) (u : List Char) : Bool :=
  match u.getLast? with
  | none => pw
  | some c => isWordChar c

/-- The SafetyDecision invariant of the spec:
teacherNotifyNow equals (safetyOutcome == TEACHER_REQUIRED). -/
def notifyInv (d : SafetyDecision) : Prop :=
  d.teacherNotifyNow = (d.safetyOutcome == SafetyOutcome.TEACHER_REQUIRED)

/-- Is the emitter call a startSession? -/
def isStartSession : EmitterCall → Bool
  | .startSession _ _ _ => true
  | _ => false

/-- The per-conversation state right after evaluateEvent has appended the
current utterance text to the transcript and compacted it against the rolling
window limit (the `existing` update of the worker's utterance branch). -/
def postTranscriptState (m : ConvMap) (event : ConversationEvent) :
    WorkerState :=
  let existing := (mapGet m event.conversationId).getD ⟨event.studentId, []⟩
  let text := (event.text.map jsTrim).getD []
  if text = [] then existing
  else { existing with
    transcript := compactTranscript
      (existing.transcript ++ [⟨mapEventRole event, text⟩])
      EVALUATOR_POLICY.rollingWindowLimit }

/-- The text the worker's deterministic short-circuit scans: the event text
concatenated with every retained student-role transcript turn. -/
def combinedDetectInput (m : ConvMap) (event : ConversationEvent) :
    List Char :=
  jsTrim (jsOrStr event.text [] ++ '\n' :: joinNl
    (((postTranscriptState m event).transcript.filter
      (fun turn => turn.role == .Student)).map (fun turn => turn.text)))

/-! ## Supporting lemmas -/

theorem totalTextLen_foldl (a : Nat) (ts : List TranscriptTurn) :
    List.foldl (fun sum turn => sum + turn.text.length) a ts =
      a + totalTextLen ts := by
  induction ts generalizing a with
  | nil => simp [totalTextLen]
  | cons t ts ih =>
    rw [List.foldl_cons, ih]
    have h2 : totalTextLen (t :: ts) = 0 + t.text.length + totalTextLen ts := by
      simp only [totalTextLen, List.foldl_cons]
      exact ih _
    rw [h2]
    omega

theorem totalTextLen_cons (t : TranscriptTurn) (ts : List TranscriptTurn) :
    totalTextLen (t :: ts) = t.text.length + totalTextLen ts := by
  have h : totalTextLen (t :: ts) =
      List.foldl (fun sum turn => sum + turn.text.length) (0 + t.text.length) ts := rfl
  rw [h, totalTextLen_foldl]
  omega

theorem compactLoop_suffix (limit : Nat) (turns : List TranscriptTurn) :
    compactLoop limit turns <:+ turns := by
  induction turns with
  | nil => simp [compactLoop]
  | cons t rest ih =>
    cases rest with
    | nil => simp [compactLoop]
    | cons u rs =>
      simp only [compactLoop]
      split
      · exact ih.trans (List.suffix_cons t (u :: rs))
      · exact List.suffix_refl _

theorem compactLoop_total (limit : Nat) (turns : List TranscriptTurn) :
    totalTextLen (compactLoop limit turns) ≤ limit ∨
      (compactLoop limit turns).length ≤ 1 := by
  induction turns with
  | nil => right; simp [compactLoop]
  | cons t rest ih =>
    cases rest with
    | nil => right; simp [compactLoop]
    | cons u rs =>
      simp only [compactLoop]
      split
      · exact ih
      · rename_i h
        left
        omega

theorem singleton_suffix_getLast {t : TranscriptTurn} {l : List TranscriptTurn}
    (h : [t] <:+ l) : l.getLast? = some t := by
  obtain ⟨u, rfl⟩ := h
  simp [List.getLast?_concat]

/-- Claim C4: for every turn sequence and every limit > 0, compactTranscript
returns either the input unchanged (total length already within the limit),
or a suffix of the input of total length at most the limit (oldest-first
eviction), or exactly one turn holding the trailing limit characters of the
last turn (length exactly limit); a limit at most 0 returns the input
unchanged. -/
theorem c4_compact_transcript (turns : List TranscriptTurn) (limit : Int) :
    (limit ≤ 0 → compactTranscript turns limit = turns) ∧
    (0 < limit →
      ((totalTextLen turns : Int) ≤ limit ∧ compactTranscript turns limit = turns) ∨
      (compactTranscript turns limit <:+ turns ∧
        (totalTextLen (compactTranscript turns limit) : Int) ≤ limit) ∨
      (∃ t, turns.getLast? = some t ∧
        compactTranscript turns limit = [⟨t.role, sliceLast limit.toNat t.text⟩] ∧
        ((sliceLast limit.toNat t.text).length : Int) = limit)) := by
  constructor
  · intro h
    simp [compactTranscript, h]
  · intro hpos
    have hne : ¬ limit ≤ 0 := by omega
    by_cases hle : (totalTextLen turns : Int) ≤ limit
    · left
      refine ⟨hle, ?_⟩
      rw [compactTranscript, if_neg hne, if_pos hle]
    · right
      have hlim : (limit.toNat : Int) = limit := Int.toNat_of_nonneg (by omega)
      have hres : compactTranscript turns limit =
          (match compactLoop limit.toNat turns with
           | [t] =>
             if limit < (t.text.length : Int) then
               [⟨t.role, sliceLast limit.toNat t.text⟩]
             else [t]
           | other => other) := by
        rw [compactTranscript, if_neg hne, if_neg hle]
      have hsuf := compactLoop_suffix limit.toNat turns
      have htot := compactLoop_total limit.toNat turns
      cases hcl : compactLoop limit.toNat turns with
      | nil =>
        left
        rw [hres, hcl]
        exact ⟨by rw [hcl] at hsuf; exact hsuf, by simp [totalTextLen]; omega⟩
      | cons t tl =>
        cases tl with
        | nil =>
          rw [hcl] at hsuf htot
          by_cases htr : limit < (t.text.length : Int)
          · right
            refine ⟨t, singleton_suffix_getLast hsuf, ?_, ?_⟩
            · rw [hres, hcl]
              simp [htr]
            · have hlt : limit.toNat < t.text.length := by omega
              simp only [sliceLast, List.length_drop]
              omega
          · left
            rw [hres, hcl]
            simp only [if_neg htr]
            refine ⟨hsuf, ?_⟩
            rw [totalTextLen_cons]
            simp only [totalTextLen]
            simp only [List.foldl_nil]
            omega
        | cons u rs =>
          left
          rw [hcl] at hsuf htot
          have hr2 : compactTranscript turns limit = t :: u :: rs := by
            rw [hres, hcl]
          refine ⟨hr2 ▸ hsuf, ?_⟩
          rw [hr2]
          rcases htot with h | h
          · omega
          · simp at h

/-- Instantiation of the compaction claim at a concrete transcript and
limit 5: the single remaining turn is truncated to its trailing 5
characters. -/
theorem c4_compact_transcript_witness :
    ((totalTextLen [(⟨.Student, "abcdefgh".data⟩ : TranscriptTurn)] : Int) ≤ 5 ∧
      compactTranscript [(⟨.Student, "abcdefgh".data⟩ : TranscriptTurn)] 5 =
        [(⟨.Student, "abcdefgh".data⟩ : TranscriptTurn)]) ∨
    (compactTranscript [(⟨.Student, "abcdefgh".data⟩ : TranscriptTurn)] 5 <:+
        [(⟨.Student, "abcdefgh".data⟩ : TranscriptTurn)] ∧
      (totalTextLen (compactTranscript
        [(⟨.Student, "abcdefgh".data⟩ : TranscriptTurn)] 5) : Int) ≤ 5) ∨
    (∃ t, [(⟨.Student, "abcdefgh".data⟩ : TranscriptTurn)].getLast? = some t ∧
      compactTranscript [(⟨.Student, "abcdefgh".data⟩ : TranscriptTurn)] 5 =
        [⟨t.role, sliceLast (5 : Int).toNat t.text⟩] ∧
      ((sliceLast (5 : Int).toNat t.text).length : Int) = 5) :=
  (c4_compact_transcript [(⟨.Student, "abcdefgh".data⟩ : TranscriptTurn)] 5).2
    (by decide)

/-- Claim C7: a failed model call yields the degraded GREEN decision with
confidence 0.35, reasonCode model_unavailable_deterministic_only, no notices
and the measured latency; an unparseable response yields the same shape with
reasonCode model_invalid_response; both are plain return values, so no error
reaches the caller. -/
theorem c7_degraded_model_decisions (event : ConversationEvent)
    (state : WorkerState) (elapsed : Nat) :
    evaluateWithModel event state .callFailed elapsed =
      { studentId := event.studentId
        conversationId := event.conversationId
        utteranceId := event.utteranceId
        safetyOutcome := .GREEN
        teacherNotifyNow := false
        shouldEndConversation := false
        reasonCode := "model_unavailable_deterministic_only".data
        confidence := 35 / 100
        latencyMs := some elapsed
        studentNotice := none
        teacherNotice := none } ∧
    evaluateWithModel event state .invalidJson elapsed =
      { studentId := event.studentId
        conversationId := event.conversationId
        utteranceId := event.utteranceId
        safetyOutcome := .GREEN
        teacherNotifyNow := false
        shouldEndConversation := false
        reasonCode := "model_invalid_response".data
        confidence := 35 / 100
        latencyMs := some elapsed
        studentNotice := none
        teacherNotice := none } :=
  ⟨rfl, rfl⟩

theorem baseDecision_notify (event : ConversationEvent)
    (outcome : SafetyOutcome) (rc : List Char) :
    notifyInv (baseDecision event outcome rc) := rfl

theorem evaluateWithModel_notify (event : ConversationEvent)
    (state : WorkerState) (resp : ModelResponse) (elapsed : Nat) :
    notifyInv (evaluateWithModel event state resp elapsed) := by
  cases resp <;> rfl

theorem failSafeDecision_notify (le : Option ConversationEvent)
    (reason : List Char) (now : Nat) :
    notifyInv (failSafeDecision le reason now) := rfl

theorem evaluateEvent_notify (m : ConvMap) (event : ConversationEvent)
    (resp : ModelResponse) (elapsed : Nat) :
    notifyInv (evaluateEvent m event resp elapsed).1 := by
  unfold evaluateEvent
  split_ifs <;> try rfl
  dsimp only
  split
  · rfl
  · exact evaluateWithModel_notify _ _ _ _

/-- Claim C5: every SafetyDecision emitted by the core (worker base
decisions, model-path decisions, degraded decisions, and client fail-safe
decisions) satisfies teacherNotifyNow == (safetyOutcome ==
TEACHER_REQUIRED). -/
theorem c5_notify_invariant :
    (∀ event outcome rc, notifyInv (baseDecision event outcome rc)) ∧
    (∀ event state resp elapsed,
      notifyInv (evaluateWithModel event state resp elapsed)) ∧
    (∀ m event resp elapsed, notifyInv (evaluateEvent m event resp elapsed).1) ∧
    (∀ le reason now, notifyInv (failSafeDecision le reason now)) :=
  ⟨fun e o rc => baseDecision_notify e o rc,
   fun e s r el => evaluateWithModel_notify e s r el,
   fun m e r el => evaluateEvent_notify m e r el,
   fun le r n => failSafeDecision_notify le r n⟩

/-- Claim C1: the downgrade rule of evaluateWithModel.  When the parsed model
response claims TEACHER_REQUIRED: if its reasonCode is outside the two
enumerated critical codes, or its evidence quote fails verification (under 6
normalized characters or not a substring of the normalized latest utterance +
rendered transcript) while the independent critical-phrase detector also does
not match, the decision is downgraded to GREEN with reasonCode
insufficient_teacher_required_evidence; otherwise the TEACHER_REQUIRED
outcome and the model reasonCode are kept. -/
theorem c1_downgrade_rule (event : ConversationEvent) (state : WorkerState)
    (p : ParsedFields) (elapsed : Nat)
    (hTR : toSafetyOutcome (jsOrStr p.safetyOutcome "GREEN".data) =
      .TEACHER_REQUIRED) :
    ((jsOrStr p.reasonCode "model_decision".data ∉ teacherRequiredReasonCodes ∨
        (((normalizeForEvidenceMatch (jsTrim (jsOrStr p.evidenceQuote []))).length < 6 ∨
          jsIncludes
            (normalizeForEvidenceMatch
              (jsOrStr event.text [] ++ '\n' :: renderTranscript state.transcript))
            (normalizeForEvidenceMatch (jsTrim (jsOrStr p.evidenceQuote []))) = false) ∧
         (detectCriticalTeacherRequiredEvidence
            (jsOrStr event.text [] ++ '\n' :: renderTranscript state.transcript)).matched
           = false)) →
      (evaluateWithModel event state (.parsed p) elapsed).safetyOutcome = .GREEN ∧
        (evaluateWithModel event state (.parsed p) elapsed).reasonCode =
          "insufficient_teacher_required_evidence".data) ∧
    ((jsOrStr p.reasonCode "model_decision".data ∈ teacherRequiredReasonCodes ∧
        ¬(((normalizeForEvidenceMatch (jsTrim (jsOrStr p.evidenceQuote []))).length < 6 ∨
          jsIncludes
            (normalizeForEvidenceMatch
              (jsOrStr event.text [] ++ '\n' :: renderTranscript state.transcript))
            (normalizeForEvidenceMatch (jsTrim (jsOrStr p.evidenceQuote []))) = false) ∧
         (detectCriticalTeacherRequiredEvidence
            (jsOrStr event.text [] ++ '\n' :: renderTranscript state.transcript)).matched
           = false)) →
      (evaluateWithModel event state (.parsed p) elapsed).safetyOutcome =
          .TEACHER_REQUIRED ∧
        (evaluateWithModel event state (.parsed p) elapsed).reasonCode =
          jsOrStr p.reasonCode "model_decision".data) := by
  constructor
  · intro hcond
    unfold evaluateWithModel
    dsimp only
    rw [hTR]
    split
    · exact ⟨rfl, rfl⟩
    · rename_i hB
      exfalso
      simp only [beq_self_eq_true, Bool.true_and, Bool.or_eq_true, Bool.not_eq_true',
        Bool.and_eq_true, Bool.not_eq_true, decide_eq_true_eq, not_or] at hB
      obtain ⟨hB1, hB2⟩ := hB
      rcases hcond with hmem | ⟨hev, hcm⟩
      · apply hmem
        simp only [List.contains, List.elem_iff] at hB1
        simpa using hB1
      · apply hB2
        refine ⟨?_, hcm⟩
        rcases hev with h6 | hinc
        · have : decide (6 ≤ (normalizeForEvidenceMatch
              (jsTrim (jsOrStr p.evidenceQuote []))).length) = false := by
            simp only [decide_eq_false_iff_not]
            omega
          rw [this, Bool.false_and]
        · rw [hinc, Bool.and_false]
  · rintro ⟨hmem, hneg⟩
    unfold evaluateWithModel
    dsimp only
    rw [hTR]
    split
    · rename_i hB
      exfalso
      simp only [beq_self_eq_true, Bool.true_and, Bool.or_eq_true, Bool.not_eq_true',
        Bool.and_eq_true, Bool.not_eq_true, decide_eq_true_eq] at hB
      rcases hB with hB1 | ⟨hEvF, hMF⟩
      · simp only [List.contains, List.elem_iff] at hB1
        simp at hB1
        exact hB1 hmem
      · apply hneg
        refine ⟨?_, hMF⟩
        rcases Bool.and_eq_false_iff.mp hEvF with h | h
        · left
          simp only [decide_eq_false_iff_not] at h
          omega
        · right
          exact h
    · exact ⟨rfl, rfl⟩

/-- Instantiation of the downgrade rule: a model response claiming
TEACHER_REQUIRED with an unrecognized reasonCode is downgraded to GREEN. -/
theorem c1_downgrade_rule_witness :
    (evaluateWithModel
      ⟨.STUDENT_UTTERANCE, .STUDENT, "s".data, "c".data, 1,
        some "hello there friend".data⟩
      ⟨"s".data, []⟩
      (.parsed ⟨some "TEACHER_REQUIRED".data, false, some "bogus".data,
        some (9 / 10), some "I hate my life".data, none, none⟩)
      0).safetyOutcome = .GREEN ∧
    (evaluateWithModel
      ⟨.STUDENT_UTTERANCE, .STUDENT, "s".data, "c".data, 1,
        some "hello there friend".data⟩
      ⟨"s".data, []⟩
      (.parsed ⟨some "TEACHER_REQUIRED".data, false, some "bogus".data,
        some (9 / 10), some "I hate my life".data, none, none⟩)
      0).reasonCode = "insufficient_teacher_required_evidence".data :=
  (c1_downgrade_rule
    ⟨.STUDENT_UTTERANCE, .STUDENT, "s".data, "c".data, 1,
      some "hello there friend".data⟩
    ⟨"s".data, []⟩
    ⟨some "TEACHER_REQUIRED".data, false, some "bogus".data,
      some (9 / 10), some "I hate my life".data, none, none⟩
    0 (by decide)).1 (Or.inl (by decide))

theorem firstPatternHit_ne_nil {ps : List RE} {src m : List Char}
    (h : firstPatternHit ps src = some m) : m ≠ [] := by
  induction ps with
  | nil => simp [firstPatternHit] at h
  | cons p ps ih =>
    simp only [firstPatternHit] at h
    cases hs : reSearchFrom p src false with
    | none =>
      rw [hs] at h
      exact ih h
    | some m2 =>
      rw [hs] at h
      dsimp only at h
      by_cases hm2 : m2 = []
      · rw [if_pos hm2] at h
        exact ih h
      · rw [if_neg hm2] at h
        cases h
        exact hm2

theorem firstRuleHit_ne_nil {rules : List (CriticalSafetyReasonCode × List RE)}
    {src : List Char} {rc : CriticalSafetyReasonCode} {m : List Char}
    (h : firstRuleHit rules src = some (rc, m)) : m ≠ [] := by
  induction rules with
  | nil => simp [firstRuleHit] at h
  | cons r rules ih =>
    obtain ⟨rc1, ps⟩ := r
    simp only [firstRuleHit] at h
    cases hp : firstPatternHit ps src with
    | none =>
      rw [hp] at h
      exact ih h
    | some m2 =>
      rw [hp] at h
      dsimp only at h
      cases h
      exact firstPatternHit_ne_nil hp

theorem detect_matched_shape {text : List Char}
    (h : (detectCriticalTeacherRequiredEvidence text).matched = true) :
    ∃ rc m, detectCriticalTeacherRequiredEvidence text =
        ⟨true, some rc, some (m.take 220)⟩ ∧ m ≠ [] ∧
      firstRuleHit TRIGGER_RULES (normalizeText text) = some (rc, m) ∧
      normalizeText text ≠ [] := by
  unfold detectCriticalTeacherRequiredEvidence at *
  dsimp only at *
  by_cases hsrc : normalizeText text = []
  · rw [if_pos hsrc] at h
    simp at h
  · rw [if_neg hsrc] at h ⊢
    cases hr : firstRuleHit TRIGGER_RULES (normalizeText text) with
    | none =>
      rw [hr] at h
      simp at h
    | some pair =>
      obtain ⟨rc, m⟩ := pair
      dsimp only at h ⊢
      exact ⟨rc, m, rfl, firstRuleHit_ne_nil hr, rfl, hsrc⟩

theorem detect_matched_fields {text : List Char}
    (h : (detectCriticalTeacherRequiredEvidence text).matched = true) :
    ∃ rc q, detectCriticalTeacherRequiredEvidence text = ⟨true, some rc, some q⟩ ∧
      q ≠ [] := by
  obtain ⟨rc, m, heq, hne, -, -⟩ := detect_matched_shape h
  refine ⟨rc, m.take 220, heq, ?_⟩
  simp [List.take_eq_nil_iff]
  intro hc
  exact absurd hc hne

/-- Claim C2: on any failure trigger reaching a non-failed client, the
failure path emits exactly the fail-safe decision then the failure callback;
if the last emitted event's text matches the Critical Phrase Detector, the
fail-safe decision is TEACHER_REQUIRED with the detector's reasonCode,
teacherNotifyNow, shouldEndConversation, confidence 1 and a teacherNotice
quoting the matched evidence; otherwise it is the policy default GREEN with
reasonCode evaluator_failure. -/
theorem c2_failsafe (st : ClientState) (trig : FailTrigger) (now : Nat)
    (hnf : st.failed = false) :
    handleFailure st (triggerReason trig) now =
      ({ st with failed := true, timeoutArmed := false, hasWorker := false },
       [.decision (failSafeDecision st.lastEvent (triggerReason trig) now),
        .failure (triggerReason trig)]) ∧
    ((detectCriticalTeacherRequiredEvidence
        (jsOrStr (st.lastEvent.bind (fun e => e.text)) [])).matched = true →
      ∃ rc q,
        (detectCriticalTeacherRequiredEvidence
          (jsOrStr (st.lastEvent.bind (fun e => e.text)) [])).reasonCode = some rc ∧
        (detectCriticalTeacherRequiredEvidence
          (jsOrStr (st.lastEvent.bind (fun e => e.text)) [])).evidenceQuote = some q ∧
        q ≠ [] ∧
        (failSafeDecision st.lastEvent (triggerReason trig) now).safetyOutcome =
          .TEACHER_REQUIRED ∧
        (failSafeDecision st.lastEvent (triggerReason trig) now).teacherNotifyNow = true ∧
        (failSafeDecision st.lastEvent (triggerReason trig) now).shouldEndConversation = true ∧
        (failSafeDecision st.lastEvent (triggerReason trig) now).reasonCode = rcStr rc ∧
        (failSafeDecision st.lastEvent (triggerReason trig) now).confidence = 1 ∧
        (failSafeDecision st.lastEvent (triggerReason trig) now).teacherNotice =
          some ("Critical safety statement detected: \"".data ++ q ++ "\".".data)) ∧
    ((detectCriticalTeacherRequiredEvidence
        (jsOrStr (st.lastEvent.bind (fun e => e.text)) [])).matched = false →
      (failSafeDecision st.lastEvent (triggerReason trig) now).safetyOutcome = .GREEN ∧
      (failSafeDecision st.lastEvent (triggerReason trig) now).reasonCode =
        "evaluator_failure".data) := by
  refine ⟨?_, ?_, ?_⟩
  · simp [handleFailure, hnf]
  · intro hm
    obtain ⟨rc, q, hdet, hq⟩ := detect_matched_fields hm
    refine ⟨rc, q, ?_, ?_, hq, ?_⟩
    · rw [hdet]
    · rw [hdet]
    · unfold failSafeDecision
      dsimp only
      rw [hdet]
      dsimp only
      rw [if_neg hq]
      exact ⟨rfl, rfl, rfl, rfl, rfl, rfl⟩
  · intro hm
    have hdet : (detectCriticalTeacherRequiredEvidence
        (jsOrStr (st.lastEvent.bind (fun e => e.text)) [])).reasonCode =
        (detectCriticalTeacherRequiredEvidence
          (jsOrStr (st.lastEvent.bind (fun e => e.text)) [])).reasonCode := rfl
    unfold failSafeDecision
    dsimp only
    rw [hm]
    exact ⟨rfl, rfl⟩

/-- Instantiation of the fail-safe claim: a response timeout on a client
whose last event says "i want to die" synthesizes a TEACHER_REQUIRED
decision quoting the matched evidence. -/
theorem c2_failsafe_witness :
    ∃ rc q,
      (detectCriticalTeacherRequiredEvidence
      (jsOrStr ((⟨true, true, false, some (⟨.STUDENT_UTTERANCE, .STUDENT, "s".data, "c".data, 2,
      some "i want to die".data⟩ : ConversationEvent)⟩ : ClientState).lastEvent.bind (fun e => e.text)) [])).reasonCode = some rc ∧
      (detectCriticalTeacherRequiredEvidence
      (jsOrStr ((⟨true, true, false, some (⟨.STUDENT_UTTERANCE, .STUDENT, "s".data, "c".data, 2,
      some "i want to die".data⟩ : ConversationEvent)⟩ : ClientState).lastEvent.bind (fun e => e.text)) [])).evidenceQuote = some q ∧
      q ≠ [] ∧
      (failSafeDecision (⟨true, true, false, some (⟨.STUDENT_UTTERANCE, .STUDENT, "s".data, "c".data, 2,
      some "i want to die".data⟩ : ConversationEvent)⟩ : ClientState).lastEvent
      (triggerReason .timeoutExpiry) 0).safetyOutcome = .TEACHER_REQUIRED ∧
      (failSafeDecision (⟨true, true, false, some (⟨.STUDENT_UTTERANCE, .STUDENT, "s".data, "c".data, 2,
      some "i want to die".data⟩ : ConversationEvent)⟩ : ClientState).lastEvent
      (triggerReason .timeoutExpiry) 0).teacherNotifyNow = true ∧
      (failSafeDecision (⟨true, true, false, some (⟨.STUDENT_UTTERANCE, .STUDENT, "s".data, "c".data, 2,
      some "i want to die".data⟩ : ConversationEvent)⟩ : ClientState).lastEvent
      (triggerReason .timeoutExpiry) 0).shouldEndConversation = true ∧
      (failSafeDecision (⟨true, true, false, some (⟨.STUDENT_UTTERANCE, .STUDENT, "s".data, "c".data, 2,
      some "i want to die".data⟩ : ConversationEvent)⟩ : ClientState).lastEvent
      (triggerReason .timeoutExpiry) 0).reasonCode = rcStr rc ∧
      (failSafeDecision (⟨true, true, false, some (⟨.STUDENT_UTTERANCE, .STUDENT, "s".data, "c".data, 2,
      some "i want to die".data⟩ : ConversationEvent)⟩ : ClientState).lastEvent
      (triggerReason .timeoutExpiry) 0).confidence = 1 ∧
      (failSafeDecision (⟨true, true, false, some (⟨.STUDENT_UTTERANCE, .STUDENT, "s".data, "c".data, 2,
      some "i want to die".data⟩ : ConversationEvent)⟩ : ClientState).lastEvent
      (triggerReason .timeoutExpiry) 0).teacherNotice =
        some ("Critical safety statement detected: \"".data ++ q ++ "\".".data) :=
  (c2_failsafe (⟨true, true, false, some (⟨.STUDENT_UTTERANCE, .STUDENT, "s".data, "c".data, 2,
      some "i want to die".data⟩ : ConversationEvent)⟩ : ClientState) .timeoutExpiry 0 rfl).2.1 (by decide)

theorem runFailureTriggers_failed (st : ClientState) (trigs : List FailTrigger)
    (now : Nat) (h : st.failed = true) :
    runFailureTriggers st trigs now = (st, []) := by
  induction trigs with
  | nil => rfl
  | cons t rest ih =>
    simp only [runFailureTriggers, handleFailure, h, if_pos]
    exact ih

/-- Claim C3: the transition to FAILED is idempotent.  On a non-failed
client, the first failure trigger of any sequence synthesizes exactly one
onDecision/onFailure pair and marks the client failed; on a failed client
every trigger sequence is a no-op producing no outputs. -/
theorem c3_failure_idempotent (st : ClientState) (trig : FailTrigger)
    (rest : List FailTrigger) (now : Nat) (hnf : st.failed = false) :
    runFailureTriggers st (trig :: rest) now =
      ({ st with failed := true, timeoutArmed := false, hasWorker := false },
       [.decision (failSafeDecision st.lastEvent (triggerReason trig) now),
        .failure (triggerReason trig)]) ∧
    (∀ st2 trigs2 now2, st2.failed = true →
      runFailureTriggers st2 trigs2 now2 = (st2, [])) := by
  refine ⟨?_, runFailureTriggers_failed⟩
  simp only [runFailureTriggers, handleFailure, hnf]
  rw [if_neg (by simp)]
  rw [runFailureTriggers_failed _ rest now rfl]
  simp

/-- Instantiation of the idempotence claim: a timeout followed by a crash
message produces exactly one onDecision/onFailure pair. -/
theorem c3_failure_idempotent_witness :
    runFailureTriggers (⟨true, true, false, none⟩ : ClientState)
      [.timeoutExpiry, .workerCrash none] 0 =
      ({ (⟨true, true, false, none⟩ : ClientState) with
          failed := true, timeoutArmed := false, hasWorker := false },
       [.decision (failSafeDecision (⟨true, true, false, none⟩ : ClientState).lastEvent
          (triggerReason .timeoutExpiry) 0),
        .failure (triggerReason .timeoutExpiry)]) :=
  (c3_failure_idempotent ⟨true, true, false, none⟩ .timeoutExpiry
    [.workerCrash none] 0 rfl).1

theorem evaluateWithModel_TR_reason (event : ConversationEvent)
    (state : WorkerState) (p : ParsedFields) (elapsed : Nat)
    (h : (evaluateWithModel event state (.parsed p) elapsed).safetyOutcome =
      .TEACHER_REQUIRED) :
    (evaluateWithModel event state (.parsed p) elapsed).reasonCode ∈
      teacherRequiredReasonCodes := by
  unfold evaluateWithModel at h ⊢
  dsimp only at h ⊢
  split at h
  · cases h
  · rename_i hB
    rw [h, beq_self_eq_true, Bool.true_and] at hB
    have hBf := Bool.eq_false_iff.mpr hB
    rcases Bool.or_eq_false_iff.mp hBf with ⟨h1, -⟩
    have hct : teacherRequiredReasonCodes.contains
        (jsOrStr p.reasonCode "model_decision".data) = true := by
      simpa using h1
    rw [h, beq_self_eq_true, Bool.true_and, hBf, if_neg (by simp)]
    simp only [List.contains, List.elem_iff] at hct
    simpa using hct

theorem failSafeDecision_TR_reason (le : Option ConversationEvent)
    (reason : List Char) (now : Nat)
    (h : (failSafeDecision le reason now).safetyOutcome = .TEACHER_REQUIRED) :
    (failSafeDecision le reason now).reasonCode ∈ teacherRequiredReasonCodes := by
  unfold failSafeDecision at h ⊢
  dsimp only at h ⊢
  cases hm : (if (detectCriticalTeacherRequiredEvidence
      (jsOrStr (le.bind (fun e => e.text)) [])).matched then
      (detectCriticalTeacherRequiredEvidence
        (jsOrStr (le.bind (fun e => e.text)) [])).reasonCode else none) with
  | none =>
    rw [hm] at h
    simp [EVALUATOR_POLICY] at h
  | some rc =>
    cases rc <;> simp [rcStr, teacherRequiredReasonCodes]

theorem rcStr_mem3 (rc : CriticalSafetyReasonCode) :
    rcStr rc ∈ ["self_harm_intent_or_plan".data,
      "serious_illegal_harm_intent_or_plan".data,
      "manual_teacher_request".data] := by
  cases rc <;> simp [rcStr]

theorem evaluateEvent_TR_reason (m : ConvMap) (event : ConversationEvent)
    (resp : ModelResponse) (elapsed : Nat)
    (h : (evaluateEvent m event resp elapsed).1.safetyOutcome =
      .TEACHER_REQUIRED) :
    (evaluateEvent m event resp elapsed).1.reasonCode ∈
      ["self_harm_intent_or_plan".data, "serious_illegal_harm_intent_or_plan".data,
       "manual_teacher_request".data] := by
  have key : ∀ psd : SafetyDecision × ConvMap,
      evaluateEvent m event resp elapsed = psd →
      psd.1.safetyOutcome = .TEACHER_REQUIRED →
      psd.1.reasonCode ∈
        ["self_harm_intent_or_plan".data,
         "serious_illegal_harm_intent_or_plan".data,
         "manual_teacher_request".data] := by
    intro psd hd
    unfold evaluateEvent at hd
    split_ifs at hd
    · intro hTR
      rw [← hd] at hTR
      simp [baseDecision] at hTR
    · intro hTR
      rw [← hd] at hTR
      simp [baseDecision] at hTR
    · intro hTR
      rw [← hd]
      simp [baseDecision]
    · intro hTR
      rw [← hd] at hTR
      simp [baseDecision] at hTR
    · dsimp only at hd
      split at hd
      · intro hTR
        rw [← hd]
        exact rcStr_mem3 _
      · intro hTR
        rw [← hd] at hTR ⊢
        dsimp only at hTR ⊢
        cases resp with
        | callFailed => simp [evaluateWithModel, modelUnavailableDecision] at hTR
        | invalidJson => simp [evaluateWithModel, modelUnavailableDecision] at hTR
        | parsed p =>
          have h3 := evaluateWithModel_TR_reason _ _ p _ hTR
          simp only [teacherRequiredReasonCodes, List.mem_cons,
            List.not_mem_nil, or_false] at h3
          simp only [List.mem_cons, List.not_mem_nil, or_false]
          rcases h3 with h4 | h4
          · exact Or.inl h4
          · exact Or.inr (Or.inl h4)
  exact key _ rfl h

/-- Claim C6 (amended): every decision the worker emits with safetyOutcome
TEACHER_REQUIRED carries a reasonCode from the fixed set
{self_harm_intent_or_plan, serious_illegal_harm_intent_or_plan,
manual_teacher_request}; in particular the model path (evaluateWithModel) and
the client fail-safe path only ever emit the two critical codes of §4.1 with
that outcome, never an arbitrary model-generated string. -/
theorem c6_teacher_required_codes :
    (∀ m event resp elapsed,
      (evaluateEvent m event resp elapsed).1.safetyOutcome = .TEACHER_REQUIRED →
      (evaluateEvent m event resp elapsed).1.reasonCode ∈
        ["self_harm_intent_or_plan".data,
         "serious_illegal_harm_intent_or_plan".data,
         "manual_teacher_request".data]) ∧
    (∀ event state p elapsed,
      (evaluateWithModel event state (.parsed p) elapsed).safetyOutcome =
        .TEACHER_REQUIRED →
      (evaluateWithModel event state (.parsed p) elapsed).reasonCode ∈
        teacherRequiredReasonCodes) ∧
    (∀ le reason now,
      (failSafeDecision le reason now).safetyOutcome = .TEACHER_REQUIRED →
      (failSafeDecision le reason now).reasonCode ∈ teacherRequiredReasonCodes) :=
  ⟨evaluateEvent_TR_reason, evaluateWithModel_TR_reason,
   failSafeDecision_TR_reason⟩

/-- Instantiation of the amended reasonCode claim at a concrete manual
teacher request. -/
theorem c6_teacher_required_codes_witness :
    (evaluateEvent ([] : ConvMap)
      ⟨.MANUAL_TEACHER_REQUEST, .STUDENT, "s".data, "c".data, 3, some "help".data⟩
      .callFailed 0).1.reasonCode ∈
      ["self_harm_intent_or_plan".data,
       "serious_illegal_harm_intent_or_plan".data,
       "manual_teacher_request".data] :=
  c6_teacher_required_codes.1 ([] : ConvMap)
    ⟨.MANUAL_TEACHER_REQUEST, .STUDENT, "s".data, "c".data, 3, some "help".data⟩
    .callFailed 0 rfl

/-- Counterexample to claim C6 as stated: the worker emits a
TEACHER_REQUIRED decision whose reasonCode manual_teacher_request is not in
the two-element enumerated set of §4.1. -/
theorem c6_counterexample :
    (evaluateEvent ([] : ConvMap)
      ⟨.MANUAL_TEACHER_REQUEST, .STUDENT, "s".data, "c".data, 3, some "help".data⟩
      .callFailed 0).1.safetyOutcome = .TEACHER_REQUIRED ∧
    (evaluateEvent ([] : ConvMap)
      ⟨.MANUAL_TEACHER_REQUEST, .STUDENT, "s".data, "c".data, 3, some "help".data⟩
      .callFailed 0).1.reasonCode = "manual_teacher_request".data ∧
    "manual_teacher_request".data ∉ teacherRequiredReasonCodes :=
  ⟨rfl, rfl, by decide⟩

theorem emitterTrace_noStart (st : EmitterState) (calls : List EmitterCall)
    (h : ∀ c ∈ calls, isStartSession c = false) :
    (emitterTrace st calls).map (fun e => e.utteranceId) =
      List.range' (st.utteranceId + 1) calls.length := by
  induction calls generalizing st with
  | nil => simp [emitterTrace]
  | cons c cs ih =>
    have hc := h c (List.mem_cons_self c cs)
    have hcs : ∀ x ∈ cs, isStartSession x = false :=
      fun x hx => h x (List.mem_cons_of_mem c hx)
    cases c with
    | startSession sid now rand => simp [isStartSession] at hc
    | studentUtterance sid text =>
      simp only [emitterTrace, emitterStep, List.map_cons, List.length_cons]
      rw [ih _ hcs, List.range'_succ]
    | modelUtterance sid text =>
      simp only [emitterTrace, emitterStep, List.map_cons, List.length_cons]
      rw [ih _ hcs, List.range'_succ]
    | manualTeacherRequest sid text =>
      simp only [emitterTrace, emitterStep, List.map_cons, List.length_cons]
      rw [ih _ hcs, List.range'_succ]
    | endSession sid =>
      simp only [emitterTrace, emitterStep, List.map_cons, List.length_cons]
      rw [ih _ hcs, List.range'_succ]

/-- Claim C9 (amended): within a single session - a startSession call
followed by any calls that are not startSession - the utteranceIds of the
returned events are exactly 0, 1, 2, ... in order: they start at 0 for
SESSION_START, increment by 1 for every subsequent event (including
SESSION_END), and no two events of the session share a utteranceId.  Across
different sessions of one emitter instance utteranceIds repeat (see the
counterexample), so uniqueness holds per session, not per instance. -/
theorem c9_emitter_utterance_ids (st : EmitterState) (sid : List Char)
    (now : Nat) (rand : List Char) (rest : List EmitterCall)
    (h : ∀ c ∈ rest, isStartSession c = false) :
    (emitterTrace st (.startSession sid now rand :: rest)).map
        (fun e => e.utteranceId) = List.range (rest.length + 1) ∧
    ((emitterTrace st (.startSession sid now rand :: rest)).map
        (fun e => e.utteranceId)).Nodup := by
  have h1 : (emitterTrace st (.startSession sid now rand :: rest)).map
      (fun e => e.utteranceId) = List.range (rest.length + 1) := by
    simp only [emitterTrace, emitterStep, List.map_cons]
    rw [emitterTrace_noStart _ _ h]
    rw [List.range_eq_range', List.range'_succ]
  refine ⟨h1, ?_⟩
  rw [h1]
  exact List.nodup_range _

/-- Instantiation of the per-session utteranceId claim: start, one student
utterance, session end give utteranceIds [0, 1, 2]. -/
theorem c9_emitter_utterance_ids_witness :
    (emitterTrace ⟨[], 0⟩
      [.startSession "s".data 0 "r".data,
       .studentUtterance "s".data "hi".data,
       .endSession "s".data]).map (fun e => e.utteranceId) =
      List.range ([EmitterCall.studentUtterance "s".data "hi".data,
        EmitterCall.endSession "s".data].length + 1) ∧
    ((emitterTrace ⟨[], 0⟩
      [.startSession "s".data 0 "r".data,
       .studentUtterance "s".data "hi".data,
       .endSession "s".data]).map (fun e => e.utteranceId)).Nodup :=
  c9_emitter_utterance_ids ⟨[], 0⟩ "s".data 0 "r".data
    [.studentUtterance "s".data "hi".data, .endSession "s".data] (by decide)

/-- Counterexample to claim C9 as stated: calling startSession twice on one
emitter instance returns two events that share utteranceId 0, so utteranceIds
are not unique across the whole instance. -/
theorem c9_counterexample :
    (emitterTrace ⟨[], 0⟩
      [.startSession "s".data 0 "r".data,
       .startSession "s".data 1 "r".data]).map (fun e => e.utteranceId) =
      [0, 0] ∧
    ¬ ((emitterTrace ⟨[], 0⟩
      [.startSession "s".data 0 "r".data,
       .startSession "s".data 1 "r".data]).map (fun e => e.utteranceId)).Nodup :=
  ⟨rfl, by decide⟩

/-- Claim C8: the detector returns the first matching pattern's result in
declared order - the self-harm group is consulted before the illegal-harm
group, and the evidence quote is the literal matched substring truncated to
220 characters; when nothing matches, or the input normalizes to the empty
string, it returns matched false; and on "I am going to kill myself after
school" it matches with reasonCode self_harm_intent_or_plan and a non-empty
evidence quote. -/
theorem c8_detector :
    (∀ text, normalizeText text = [] →
      detectCriticalTeacherRequiredEvidence text = ⟨false, none, none⟩) ∧
    (∀ text m, normalizeText text ≠ [] →
      firstPatternHit SELF_HARM_PATTERNS (normalizeText text) = some m →
      detectCriticalTeacherRequiredEvidence text =
        ⟨true, some .self_harm_intent_or_plan, some (m.take 220)⟩) ∧
    (∀ text m, normalizeText text ≠ [] →
      firstPatternHit SELF_HARM_PATTERNS (normalizeText text) = none →
      firstPatternHit ILLEGAL_HARM_PATTERNS (normalizeText text) = some m →
      detectCriticalTeacherRequiredEvidence text =
        ⟨true, some .serious_illegal_harm_intent_or_plan, some (m.take 220)⟩) ∧
    (∀ text,
      firstPatternHit SELF_HARM_PATTERNS (normalizeText text) = none →
      firstPatternHit ILLEGAL_HARM_PATTERNS (normalizeText text) = none →
      detectCriticalTeacherRequiredEvidence text = ⟨false, none, none⟩) ∧
    ((detectCriticalTeacherRequiredEvidence
        "I am going to kill myself after school".data).matched = true ∧
      (detectCriticalTeacherRequiredEvidence
        "I am going to kill myself after school".data).reasonCode =
        some .self_harm_intent_or_plan ∧
      ∃ q, (detectCriticalTeacherRequiredEvidence
        "I am going to kill myself after school".data).evidenceQuote = some q ∧
        q ≠ []) := by
  refine ⟨?_, ?_, ?_, ?_, rfl, rfl, "i am going to kill myself".data, rfl,
    by decide⟩
  · intro text h
    unfold detectCriticalTeacherRequiredEvidence
    rw [if_pos h]
  · intro text m hne hsh
    unfold detectCriticalTeacherRequiredEvidence
    rw [if_neg hne]
    simp only [TRIGGER_RULES, firstRuleHit, hsh]
  · intro text m hne hsh hil
    unfold detectCriticalTeacherRequiredEvidence
    rw [if_neg hne]
    simp only [TRIGGER_RULES, firstRuleHit, hsh, hil]
  · intro text hsh hil
    unfold detectCriticalTeacherRequiredEvidence
    by_cases hne : normalizeText text = []
    · rw [if_pos hne]
    · rw [if_neg hne]
      simp only [TRIGGER_RULES, firstRuleHit, hsh, hil]

/-- Instantiation of the detector claim on the concrete self-harm sentence:
the first self-harm pattern hit determines the returned match. -/
theorem c8_detector_witness :
    detectCriticalTeacherRequiredEvidence
      "I am going to kill myself after school".data =
      ⟨true, some .self_harm_intent_or_plan,
       some (("i am going to kill myself".data).take 220)⟩ :=
  c8_detector.2.1 "I am going to kill myself after school".data
    "i am going to kill myself".data (by decide) rfl

/-! ## Word-structure lemmas for the normalizers -/

theorem takeWhile_all_append (p : Char → Bool) (a b : List Char)
    (h : ∀ c ∈ a, p c = true) :
    List.takeWhile p (a ++ b) = a ++ List.takeWhile p b := by
  induction a with
  | nil => simp
  | cons c a ih =>
    have hc := h c (List.mem_cons_self c a)
    simp only [List.cons_append, List.takeWhile_cons, hc, if_true]
    rw [ih (fun x hx => h x (List.mem_cons_of_mem c hx))]

theorem dropWhile_all_append (p : Char → Bool) (a b : List Char)
    (h : ∀ c ∈ a, p c = true) :
    List.dropWhile p (a ++ b) = List.dropWhile p b := by
  induction a with
  | nil => simp
  | cons c a ih =>
    have hc := h c (List.mem_cons_self c a)
    simp only [List.cons_append, List.dropWhile_cons, hc, if_true]
    exact ih (fun x hx => h x (List.mem_cons_of_mem c hx))

theorem dropWhile_append_of_ne_nil (p : Char → Bool) (a b : List Char)
    (h : List.dropWhile p a ≠ []) :
    List.dropWhile p (a ++ b) = List.dropWhile p a ++ b := by
  induction a with
  | nil => simp at h
  | cons c a ih =>
    by_cases hc : p c = true
    · simp only [List.cons_append, List.dropWhile_cons, hc, if_true]
      simp only [List.dropWhile_cons, hc, if_true] at h
      exact ih h
    · have hc2 : p c = false := by
        cases hpc : p c
        · rfl
        · exact absurd hpc hc
      simp only [List.cons_append, List.dropWhile_cons, hc2]
      simp

theorem dropWhile_head_false (p : Char → Bool) (c : Char) (l : List Char)
    (h : p c = false) : List.dropWhile p (c :: l) = c :: l := by
  simp [List.dropWhile_cons, h]

theorem dropWhile_nil_iff (p : Char → Bool) (l : List Char) :
    List.dropWhile p l = [] ↔ ∀ c ∈ l, p c = true := by
  induction l with
  | nil => simp
  | cons c l ih =>
    by_cases hc : p c = true
    · simp [List.dropWhile_cons, hc, ih]
    · have hc2 : p c = false := by
        cases hpc : p c
        · rfl
        · exact absurd hpc hc
      simp [List.dropWhile_cons, hc2, hc]

theorem jsTrim_space_cons (x : List Char) : jsTrim (' ' :: x) = jsTrim x := by
  unfold jsTrim trimStartWs
  rw [List.dropWhile_cons]
  simp [isJsSpace]

theorem trimEndWs_all_nonws (w : List Char)
    (h : ∀ c ∈ w, isJsSpace c = false) : trimEndWs w = w := by
  unfold trimEndWs
  cases hw : w.reverse with
  | nil => simp [List.reverse_eq_nil_iff.mp hw]
  | cons c r =>
    have hc : c ∈ w := by
      have : c ∈ w.reverse := by rw [hw]; exact List.mem_cons_self c r
      simpa using this
    rw [dropWhile_head_false _ _ _ (h c hc), ← hw]
    simp

theorem trimEndWs_append_of_ne_nil (a b : List Char)
    (h : trimEndWs b ≠ []) : trimEndWs (a ++ b) = a ++ trimEndWs b := by
  unfold trimEndWs at *
  rw [List.reverse_append]
  have hb : List.dropWhile (fun c => isJsSpace c) b.reverse ≠ [] := by
    intro hc
    rw [hc] at h
    simp at h
  rw [dropWhile_append_of_ne_nil _ _ _ hb]
  simp

theorem trimEndWs_ne_nil_of_head (c : Char) (l : List Char)
    (h : isJsSpace c = false) : trimEndWs (c :: l) ≠ [] := by
  unfold trimEndWs
  intro hc
  rw [List.reverse_eq_nil_iff] at hc
  rw [dropWhile_nil_iff] at hc
  have := hc c (by simp)
  rw [h] at this
  cases this

theorem trimEndWs_append_ws (a b : List Char)
    (h : ∀ c ∈ b, isJsSpace c = true) : trimEndWs (a ++ b) = trimEndWs a := by
  unfold trimEndWs
  rw [List.reverse_append]
  rw [dropWhile_all_append _ _ _ (by intro c hc; exact h c (by simpa using hc))]

theorem squeezeWs_nonws_append (w x : List Char)
    (h : ∀ c ∈ w, isJsSpace c = false) :
    squeezeWs (w ++ x) = w ++ squeezeWs x := by
  induction w with
  | nil => simp
  | cons c w ih =>
    have hc := h c (List.mem_cons_self c w)
    have hw : ∀ d ∈ w, isJsSpace d = false :=
      fun d hd => h d (List.mem_cons_of_mem c hd)
    cases hwx : w ++ x with
    | nil =>
      simp only [List.cons_append, hwx, squeezeWs, hc]
      rcases List.append_eq_nil.mp hwx with ⟨rfl, rfl⟩
      simp [squeezeWs]
    | cons d t =>
      simp only [List.cons_append, hwx, squeezeWs, hc]
      rw [Bool.false_and, if_neg (by simp), if_neg (by simp [hc])]
      rw [← hwx, ih hw]

theorem squeezeWs_ws_cons (c : Char) (x : List Char) (h : isJsSpace c = true) :
    squeezeWs (c :: x) = ' ' :: squeezeWs (x.dropWhile (fun d => isJsSpace d)) := by
  induction x generalizing c with
  | nil => simp [squeezeWs, h]
  | cons e t ih =>
    by_cases he : isJsSpace e = true
    · simp only [squeezeWs, h, he, Bool.and_self, if_pos]
      rw [ih e he]
      simp [List.dropWhile_cons, he]
    · have he2 : isJsSpace e = false := by
        cases hpe : isJsSpace e
        · rfl
        · exact absurd hpe he
      simp [squeezeWs, h, he2, List.dropWhile_cons]

theorem splitWs_ws_cons (c : Char) (x : List Char) (h : isJsSpace c = true) :
    splitWs (c :: x) = splitWs x := by
  rw [splitWs]
  simp [h]

theorem splitWs_nonws_cons (c : Char) (x : List Char) (h : isJsSpace c = false) :
    splitWs (c :: x) =
      (c :: x.takeWhile (fun d => !isJsSpace d)) ::
        splitWs (x.dropWhile (fun d => !isJsSpace d)) := by
  rw [splitWs]
  simp [h]

theorem splitWs_dropWhile_ws (x : List Char) :
    splitWs (x.dropWhile (fun d => isJsSpace d)) = splitWs x := by
  induction x with
  | nil => simp
  | cons c t ih =>
    by_cases hc : isJsSpace c = true
    · rw [List.dropWhile_cons, if_pos hc, ih, splitWs_ws_cons c t hc]
    · have hc2 : isJsSpace c = false := by
        cases hpc : isJsSpace c
        · rfl
        · exact absurd hpc hc
      rw [List.dropWhile_cons]
      simp [hc2]

theorem splitWs_word_append (w r : List Char) (hw : w ≠ [])
    (h : ∀ c ∈ w, isJsSpace c = false)
    (hr : r = [] ∨ ∃ d t, r = d :: t ∧ isJsSpace d = true) :
    splitWs (w ++ r) = w :: splitWs r := by
  cases w with
  | nil => exact absurd rfl hw
  | cons c w' =>
    have hc := h c (List.mem_cons_self c w')
    have hw' : ∀ d ∈ w', isJsSpace d = false :=
      fun d hd => h d (List.mem_cons_of_mem c hd)
    rw [List.cons_append, splitWs_nonws_cons c (w' ++ r) hc]
    have htk : List.takeWhile (fun d => !isJsSpace d) (w' ++ r) = w' := by
      rw [takeWhile_all_append _ _ _ (by intro d hd; simp [hw' d hd])]
      rcases hr with rfl | ⟨d, t, rfl, hd⟩
      · simp
      · simp [List.takeWhile_cons, hd]
    have hdr : List.dropWhile (fun d => !isJsSpace d) (w' ++ r) = r := by
      rw [dropWhile_all_append _ _ _ (by intro d hd; simp [hw' d hd])]
      rcases hr with rfl | ⟨d, t, rfl, hd⟩
      · simp
      · rw [dropWhile_head_false _ _ _ (by simp [hd])]
    rw [htk, hdr]

theorem bool_eq_false {b : Bool} (h : ¬ b = true) : b = false := by
  cases b
  · rfl
  · exact absurd rfl h

theorem spaceJoin_cons_ne (w : List Char) {rest : List (List Char)}
    (h : rest ≠ []) : spaceJoin (w :: rest) = w ++ ' ' :: spaceJoin rest := by
  cases rest with
  | nil => exact absurd rfl h
  | cons a r => rfl

theorem trimStart_nonws_head (c : Char) (l : List Char)
    (h : isJsSpace c = false) : trimStartWs (c :: l) = c :: l := by
  unfold trimStartWs
  exact dropWhile_head_false _ _ _ h

theorem jsTrim_nonws_head (c : Char) (l : List Char)
    (h : isJsSpace c = false) : jsTrim (c :: l) = trimEndWs (c :: l) := by
  unfold jsTrim
  rw [trimStart_nonws_head c l h]

theorem dropWhile_head_ws (x : List Char) :
    x.dropWhile (fun d => isJsSpace d) = [] ∨
    ∃ e t2, x.dropWhile (fun d => isJsSpace d) = e :: t2 ∧ isJsSpace e = false := by
  induction x with
  | nil => exact Or.inl rfl
  | cons c t ih =>
    by_cases hc : isJsSpace c = true
    · rw [List.dropWhile_cons, if_pos (by simp [hc])]
      exact ih
    · have hc2 := bool_eq_false hc
      rw [List.dropWhile_cons, if_neg (by simp [hc2])]
      exact Or.inr ⟨c, t, rfl, hc2⟩

theorem dropWhile_head_nonws (x : List Char) :
    x.dropWhile (fun d => !isJsSpace d) = [] ∨
    ∃ e t2, x.dropWhile (fun d => !isJsSpace d) = e :: t2 ∧ isJsSpace e = true := by
  induction x with
  | nil => exact Or.inl rfl
  | cons c t ih =>
    by_cases hc : isJsSpace c = true
    · rw [List.dropWhile_cons, if_neg (by simp [hc])]
      exact Or.inr ⟨c, t, rfl, hc⟩
    · have hc2 := bool_eq_false hc
      rw [List.dropWhile_cons, if_pos (by simp [hc2])]
      exact ih

theorem normWords_aux (n : Nat) :
    ∀ m : List Char, m.length ≤ n →
      jsTrim (squeezeWs m) = spaceJoin (splitWs m) := by
  induction n with
  | zero =>
    intro m hm
    have hm0 : m = [] := by
      cases m with
      | nil => rfl
      | cons c r => simp at hm
    subst hm0
    simp [squeezeWs, splitWs, jsTrim, trimStartWs, trimEndWs, spaceJoin]
  | succ n ih =>
    intro m hm
    cases m with
    | nil => simp [squeezeWs, splitWs, jsTrim, trimStartWs, trimEndWs, spaceJoin]
    | cons c rest =>
      have hrest : rest.length ≤ n := by
        simp only [List.length_cons] at hm
        omega
      by_cases hc : isJsSpace c = true
      · rw [splitWs_ws_cons c rest hc, squeezeWs_ws_cons c rest hc,
          jsTrim_space_cons]
        have hle : (List.dropWhile (fun d => isJsSpace d) rest).length ≤
            rest.length := (List.dropWhile_sublist _).length_le
        rw [ih (rest.dropWhile (fun d => isJsSpace d)) (by omega),
          splitWs_dropWhile_ws]
      · have hc2 : isJsSpace c = false := bool_eq_false hc
        have hsplit : c :: rest =
            (c :: rest.takeWhile (fun d => !isJsSpace d)) ++
              rest.dropWhile (fun d => !isJsSpace d) := by
          rw [List.cons_append, List.takeWhile_append_dropWhile]
        have hallw : ∀ d ∈ c :: rest.takeWhile (fun d => !isJsSpace d),
            isJsSpace d = false := by
          intro d hd
          rcases List.mem_cons.mp hd with rfl | hd
          · exact hc2
          · have := List.mem_takeWhile_imp hd
            simpa using this
        have hrshape := dropWhile_head_nonws rest
        rw [hsplit, squeezeWs_nonws_append _ _ hallw,
          splitWs_word_append _ _ (by simp) hallw
            (by rcases hrshape with h1 | ⟨d, t, h1, h2⟩
                · exact Or.inl h1
                · exact Or.inr ⟨d, t, h1, h2⟩)]
        rcases hrshape with h1 | ⟨d, t, h1, h2⟩
        · rw [h1]
          simp only [squeezeWs, List.append_nil, splitWs]
          rw [jsTrim_nonws_head c _ hc2, trimEndWs_all_nonws _ hallw]
          rfl
        · rw [h1, squeezeWs_ws_cons d t h2]
          have hsr : splitWs (d :: t) =
              splitWs (t.dropWhile (fun e => isJsSpace e)) := by
            rw [splitWs_ws_cons d t h2, splitWs_dropWhile_ws]
          rw [hsr]
          have hlt : (List.dropWhile (fun d => !isJsSpace d) rest).length ≤
              rest.length := (List.dropWhile_sublist _).length_le
          rw [h1, List.length_cons] at hlt
          have hlw : (List.dropWhile (fun e => isJsSpace e) t).length ≤
              t.length := (List.dropWhile_sublist _).length_le
          have hrec := ih (t.dropWhile (fun e => isJsSpace e)) (by omega)
          rcases dropWhile_head_ws t with h5 | ⟨e, t2, h5, h6⟩
          · rw [h5]
            simp only [squeezeWs]
            rw [List.cons_append, jsTrim_nonws_head c _ hc2, ← List.cons_append,
              trimEndWs_append_ws _ [' ']
                (by intro x hx; simp at hx; simp [hx, isJsSpace]),
              trimEndWs_all_nonws _ hallw]
            rw [h5] at hrec
            simp only [splitWs]
            rfl
          · rw [h5]
            have hsq : squeezeWs (e :: t2) = e :: squeezeWs t2 := by
              have := squeezeWs_nonws_append [e] t2
                (by intro x hx; simp at hx; simp [hx, h6])
              simpa using this
            rw [hsq]
            rw [h5] at hrec
            rw [hsq, jsTrim_nonws_head e _ h6] at hrec
            have hTne : trimEndWs (e :: squeezeWs t2) ≠ [] :=
              trimEndWs_ne_nil_of_head e _ h6
            have hLHS : jsTrim ((c :: rest.takeWhile (fun d => !isJsSpace d)) ++
                ' ' :: e :: squeezeWs t2) =
                ((c :: rest.takeWhile (fun d => !isJsSpace d)) ++ [' ']) ++
                  trimEndWs (e :: squeezeWs t2) := by
              rw [List.cons_append, jsTrim_nonws_head c _ hc2, ← List.cons_append]
              rw [show (c :: rest.takeWhile (fun d => !isJsSpace d)) ++
                  (' ' :: e :: squeezeWs t2) =
                  ((c :: rest.takeWhile (fun d => !isJsSpace d)) ++ [' ']) ++
                    (e :: squeezeWs t2) by simp]
              rw [trimEndWs_append_of_ne_nil _ _ hTne]
            rw [hLHS, hrec]
            have hsne : splitWs (e :: t2) ≠ [] := by
              rw [splitWs_nonws_cons e t2 h6]
              simp
            rw [spaceJoin_cons_ne _ hsne]
            simp

theorem normWords (m : List Char) :
    jsTrim (squeezeWs m) = spaceJoin (splitWs m) :=
  normWords_aux m.length m (Nat.le_refl _)

theorem splitWs_nil : splitWs [] = [] := by
  rw [splitWs]

theorem splitWs_word (w : List Char) (hw : w ≠ [])
    (hall : ∀ c ∈ w, isJsSpace c = false) : splitWs w = [w] := by
  have h := splitWs_word_append w [] hw hall (Or.inl rfl)
  rw [List.append_nil] at h
  rw [h, splitWs_nil]

theorem splitWs_all_ws (l : List Char) (h : ∀ c ∈ l, isJsSpace c = true) :
    splitWs l = [] := by
  induction l with
  | nil => exact splitWs_nil
  | cons c t ih =>
    rw [splitWs_ws_cons c t (h c (List.mem_cons_self c t))]
    exact ih (fun d hd => h d (List.mem_cons_of_mem c hd))

theorem splitWs_ws_run_append (r z : List Char)
    (h : ∀ c ∈ r, isJsSpace c = true) : splitWs (r ++ z) = splitWs z := by
  induction r with
  | nil => rfl
  | cons c t ih =>
    rw [List.cons_append, splitWs_ws_cons c _ (h c (List.mem_cons_self c t))]
    exact ih (fun d hd => h d (List.mem_cons_of_mem c hd))

theorem splitWs_sep_append_aux (n : Nat) :
    ∀ z y : List Char, ∀ c : Char, z.length ≤ n → isJsSpace c = true →
      splitWs (z ++ c :: y) = splitWs z ++ splitWs y := by
  induction n with
  | zero =>
    intro z y c hz hc
    have hz0 : z = [] := by
      cases z with
      | nil => rfl
      | cons a t => simp at hz
    subst hz0
    simp [splitWs_ws_cons _ _ hc, splitWs_nil]
  | succ n ih =>
    intro z y c hz hc
    cases z with
    | nil => simp [splitWs_ws_cons _ _ hc, splitWs_nil]
    | cons a z' =>
      have hz' : z'.length ≤ n := by
        simp only [List.length_cons] at hz
        omega
      by_cases ha : isJsSpace a = true
      · rw [List.cons_append, splitWs_ws_cons a _ ha, splitWs_ws_cons a _ ha]
        exact ih z' y c hz' hc
      · have ha2 : isJsSpace a = false := bool_eq_false ha
        have hallw : ∀ d ∈ a :: z'.takeWhile (fun d => !isJsSpace d),
            isJsSpace d = false := by
          intro d hd
          rcases List.mem_cons.mp hd with rfl | hd
          · exact ha2
          · have := List.mem_takeWhile_imp hd
            simpa using this
        have hsplit : a :: z' =
            (a :: z'.takeWhile (fun d => !isJsSpace d)) ++
              z'.dropWhile (fun d => !isJsSpace d) := by
          rw [List.cons_append, List.takeWhile_append_dropWhile]
        rcases dropWhile_head_nonws z' with h1 | ⟨d, t, h1, h2⟩
        · have hword : a :: z' = a :: z'.takeWhile (fun d => !isJsSpace d) := by
            rw [hsplit, h1, List.append_nil]
          rw [hword]
          rw [splitWs_word_append _ _ (by simp) hallw
            (Or.inr ⟨c, y, rfl, hc⟩)]
          rw [splitWs_word _ (by simp) hallw]
          rw [splitWs_ws_cons c y hc]
          simp
        · have hlt : t.length ≤ n := by
            have hd1 : (List.dropWhile (fun d => !isJsSpace d) z').length ≤
                z'.length := (List.dropWhile_sublist _).length_le
            rw [h1, List.length_cons] at hd1
            omega
          rw [hsplit, h1]
          rw [show ((a :: z'.takeWhile (fun d => !isJsSpace d)) ++ d :: t) ++ c :: y =
            (a :: z'.takeWhile (fun d => !isJsSpace d)) ++ d :: (t ++ c :: y) by simp]
          rw [splitWs_word_append _ _ (by simp) hallw (Or.inr ⟨d, _, rfl, h2⟩)]
          rw [splitWs_word_append _ _ (by simp) hallw (Or.inr ⟨d, t, rfl, h2⟩)]
          rw [splitWs_ws_cons d _ h2, splitWs_ws_cons d t h2]
          rw [ih t y c hlt hc]
          simp

theorem splitWs_sep_append (z y : List Char) (c : Char)
    (hc : isJsSpace c = true) :
    splitWs (z ++ c :: y) = splitWs z ++ splitWs y :=
  splitWs_sep_append_aux z.length z y c (Nat.le_refl _) hc

theorem splitWs_ws_run_trail (z r : List Char)
    (h : ∀ c ∈ r, isJsSpace c = true) : splitWs (z ++ r) = splitWs z := by
  cases r with
  | nil => simp
  | cons c t =>
    rw [splitWs_sep_append z t c (h c (List.mem_cons_self c t))]
    rw [splitWs_all_ws t (fun d hd => h d (List.mem_cons_of_mem c hd))]
    simp

theorem premap_append (a b : List Char) :
    premap (a ++ b) = premap a ++ premap b := by
  unfold premap
  exact List.map_append _ a b

theorem premap_ws_char (c : Char) (h : isJsSpace c = true) :
    stripDisallowed (foldQuote (jsToLower c)) = c := by
  have hcases : c = ' ' ∨ c = '\t' ∨ c = '\n' ∨ c = '\r' ∨ c = '\x0b' ∨
      c = '\x0c' := by
    simp only [isJsSpace, Bool.or_eq_true, decide_eq_true_eq] at h
    tauto
  rcases hcases with rfl | rfl | rfl | rfl | rfl | rfl <;> decide

theorem premap_all_ws (r : List Char) (h : ∀ c ∈ r, isJsSpace c = true) :
    premap r = r := by
  induction r with
  | nil => rfl
  | cons c t ih =>
    unfold premap at *
    simp only [List.map_cons]
    rw [premap_ws_char c (h c (List.mem_cons_self c t))]
    rw [ih (fun d hd => h d (List.mem_cons_of_mem c hd))]

theorem normalizeText_words (l : List Char) :
    normalizeText l = spaceJoin (splitWs (premap l)) := normWords (premap l)

theorem splitWs_premap_jsTrim (x : List Char) :
    splitWs (premap (jsTrim x)) = splitWs (premap x) := by
  have hx1 : x = x.takeWhile (fun c => isJsSpace c) ++ trimStartWs x := by
    unfold trimStartWs
    rw [List.takeWhile_append_dropWhile]
  have hlead : ∀ c ∈ x.takeWhile (fun c => isJsSpace c), isJsSpace c = true := by
    intro c hc
    exact List.mem_takeWhile_imp hc
  have hz : trimStartWs x = jsTrim x ++
      ((trimStartWs x).reverse.takeWhile (fun c => isJsSpace c)).reverse := by
    unfold jsTrim trimEndWs
    have h2 : (trimStartWs x).reverse =
        (trimStartWs x).reverse.takeWhile (fun c => isJsSpace c) ++
          (trimStartWs x).reverse.dropWhile (fun c => isJsSpace c) := by
      rw [List.takeWhile_append_dropWhile]
    calc trimStartWs x = (trimStartWs x).reverse.reverse := by simp
    _ = _ := by
      rw [h2]
      rw [List.reverse_append]
      simp
  have htrail : ∀ c ∈ ((trimStartWs x).reverse.takeWhile
      (fun c => isJsSpace c)).reverse, isJsSpace c = true := by
    intro c hc
    exact List.mem_takeWhile_imp (List.mem_reverse.mp hc)
  calc splitWs (premap (jsTrim x))
      = splitWs (premap (jsTrim x) ++
          premap (((trimStartWs x).reverse.takeWhile
            (fun c => isJsSpace c)).reverse)) := by
        rw [premap_all_ws _ htrail]
        rw [splitWs_ws_run_trail _ _ htrail]
    _ = splitWs (premap (trimStartWs x)) := by rw [← premap_append, ← hz]
    _ = splitWs (premap (x.takeWhile (fun c => isJsSpace c)) ++
          premap (trimStartWs x)) := by
        rw [premap_all_ws _ hlead]
        rw [splitWs_ws_run_append _ _ hlead]
    _ = splitWs (premap x) := by
        rw [← premap_append, ← hx1]

theorem splitWs_premap_joinNl (texts : List (List Char)) :
    splitWs (premap (joinNl texts)) =
      (texts.map (fun t => splitWs (premap t))).flatten := by
  induction texts with
  | nil => simp [joinNl, premap, splitWs_nil]
  | cons t rest ih =>
    cases rest with
    | nil => simp [joinNl]
    | cons u rest2 =>
      rw [show joinNl (t :: u :: rest2) = t ++ '\n' :: joinNl (u :: rest2)
        from rfl]
      rw [premap_append]
      rw [show premap ('\n' :: joinNl (u :: rest2)) =
        '\n' :: premap (joinNl (u :: rest2)) by
          unfold premap
          simp only [List.map_cons]
          rw [premap_ws_char '\n' (by decide)]]
      rw [splitWs_sep_append _ _ '\n' (by decide)]
      rw [ih]
      simp

theorem spaceJoin_append (A M : List (List Char)) (hM : M ≠ []) :
    spaceJoin (A ++ M) =
      spaceJoin A ++ (if A = [] then [] else [' ']) ++ spaceJoin M := by
  induction A with
  | nil => simp [spaceJoin]
  | cons a A' ih =>
    cases A' with
    | nil =>
      cases M with
      | nil => exact absurd rfl hM
      | cons m M2 =>
        simp only [List.cons_append, List.nil_append]
        rw [show spaceJoin (a :: m :: M2) = a ++ ' ' :: spaceJoin (m :: M2)
          from rfl]
        simp [spaceJoin]
    | cons b A2 =>
      simp only [List.cons_append]
      rw [spaceJoin_cons_ne a (by simp : b :: (A2 ++ M) ≠ [])]
      have h2 : b :: (A2 ++ M) = (b :: A2) ++ M := by simp
      rw [h2, ih]
      rw [spaceJoin_cons_ne a (by simp : (b : List Char) :: A2 ≠ [])]
      simp

theorem normalize_decomp (E T : List Char) (L R : List (List Char))
    (hTne : normalizeText T ≠ []) :
    ∃ A B, normalizeText (jsTrim (E ++ '\n' :: joinNl (L ++ T :: R))) =
        A ++ normalizeText T ++ B ∧
      (A = [] ∨ ∃ A2, A = A2 ++ [' ']) ∧ headIsWord B = false := by
  have hX : normalizeText (jsTrim (E ++ '\n' :: joinNl (L ++ T :: R))) =
      spaceJoin (splitWs (premap (E ++ '\n' :: joinNl (L ++ T :: R)))) := by
    rw [normalizeText_words (jsTrim _), splitWs_premap_jsTrim]
  have hmapcons : premap ('\n' :: joinNl (L ++ T :: R)) =
      '\n' :: premap (joinNl (L ++ T :: R)) := by
    unfold premap
    simp only [List.map_cons]
    rw [premap_ws_char '\n' (by decide)]
  have h1 : splitWs (premap (E ++ '\n' :: joinNl (L ++ T :: R))) =
      splitWs (premap E) ++ splitWs (premap (joinNl (L ++ T :: R))) := by
    rw [premap_append, hmapcons, splitWs_sep_append _ _ '\n' (by decide)]
  have h2 : splitWs (premap (joinNl (L ++ T :: R))) =
      (L.map (fun t => splitWs (premap t))).flatten ++
        (splitWs (premap T) ++ (R.map (fun t => splitWs (premap t))).flatten) := by
    rw [splitWs_premap_joinNl]
    simp
  have hWTne : splitWs (premap T) ≠ [] := by
    intro hc
    apply hTne
    rw [normalizeText_words, hc]
    rfl
  have hwords : splitWs (premap (E ++ '\n' :: joinNl (L ++ T :: R))) =
      (splitWs (premap E) ++ (L.map (fun t => splitWs (premap t))).flatten) ++
        (splitWs (premap T) ++ (R.map (fun t => splitWs (premap t))).flatten) := by
    rw [h1, h2]
    simp
  rw [hX, hwords]
  rw [spaceJoin_append _ _
    (List.append_ne_nil_of_left_ne_nil hWTne _)]
  cases hR : (R.map (fun t => splitWs (premap t))).flatten with
  | nil =>
    rw [List.append_nil]
    refine ⟨spaceJoin (splitWs (premap E) ++
        (L.map (fun t => splitWs (premap t))).flatten) ++
      (if splitWs (premap E) ++
        (L.map (fun t => splitWs (premap t))).flatten = [] then [] else [' ']),
      [], ?_, ?_, rfl⟩
    · rw [normalizeText_words T]
      simp
    · by_cases hWA : splitWs (premap E) ++
          (L.map (fun t => splitWs (premap t))).flatten = []
      · left
        rw [hWA]
        simp [spaceJoin]
      · right
        exact ⟨spaceJoin _, by rw [if_neg hWA]⟩
  | cons wb wbs =>
    rw [spaceJoin_append _ _ (by simp : wb :: wbs ≠ [])]
    rw [if_neg hWTne]
    refine ⟨spaceJoin (splitWs (premap E) ++
        (L.map (fun t => splitWs (premap t))).flatten) ++
      (if splitWs (premap E) ++
        (L.map (fun t => splitWs (premap t))).flatten = [] then [] else [' ']),
      ' ' :: spaceJoin (wb :: wbs), ?_, ?_,
      by simp only [headIsWord]; decide⟩
    · rw [normalizeText_words T]
      simp
    · by_cases hWA : splitWs (premap E) ++
          (L.map (fun t => splitWs (premap t))).flatten = []
      · left
        rw [hWA]
        simp [spaceJoin]
      · right
        exact ⟨spaceJoin _, by rw [if_neg hWA]⟩

/-! ## Matcher lemmas -/

theorem headIsWord_append (s v : List Char) (hv : headIsWord v = false) :
    headIsWord (s ++ v) = headIsWord s := by
  cases s with
  | nil => simpa using hv
  | cons c t => rfl

theorem reStarLoop_calls
    (runA : List Char → Bool → (List Char → Bool → Option Nat) → Option Nat)
    (hA : ∀ s pw k n, runA s pw k = some n →
      ∃ t pw2, k t pw2 = some n ∧ t.length ≤ s.length) :
    ∀ f s pw k n, reStarLoop runA f s pw k = some n →
      ∃ t pw2, k t pw2 = some n ∧ t.length ≤ s.length := by
  intro f
  induction f with
  | zero =>
    intro s pw k n h
    exact ⟨s, pw, h, Nat.le_refl _⟩
  | succ f ih =>
    intro s pw k n h
    rw [reStarLoop] at h
    cases hA1 : runA s pw (fun s1 pw1 =>
        if s1.length < s.length then reStarLoop runA f s1 pw1 k else none) with
    | some n2 =>
      rw [hA1] at h
      dsimp only at h
      cases h
      obtain ⟨t1, pw1, hin, hle1⟩ := hA _ _ _ _ hA1
      split at hin
      · rename_i hlt
        obtain ⟨t2, pw2, hk2, hle2⟩ := ih _ _ _ _ hin
        exact ⟨t2, pw2, hk2, by omega⟩
      · cases hin
    | none =>
      rw [hA1] at h
      dsimp only at h
      exact ⟨s, pw, h, Nat.le_refl _⟩

theorem reRun_calls (r : RE) :
    ∀ f s pw k n, reRun f r s pw k = some n →
      ∃ t pw2, k t pw2 = some n ∧ t.length ≤ s.length ∧
        (needsChar r = true → t.length < s.length) := by
  induction r with
  | eps =>
    intro f s pw k n h
    exact ⟨s, pw, h, Nat.le_refl _, by intro hc; simp [needsChar] at hc⟩
  | wb =>
    intro f s pw k n h
    rw [reRun] at h
    split at h
    · exact ⟨s, pw, h, Nat.le_refl _, by intro hc; simp [needsChar] at hc⟩
    · cases h
  | lit c =>
    intro f s pw k n h
    cases s with
    | nil => rw [reRun] at h; cases h
    | cons x xs =>
      rw [reRun] at h
      split at h
      · exact ⟨xs, isWordChar x, h, by simp, fun _ => by simp⟩
      · cases h
  | cls cs =>
    intro f s pw k n h
    cases s with
    | nil => rw [reRun] at h; cases h
    | cons x xs =>
      rw [reRun] at h
      split at h
      · exact ⟨xs, isWordChar x, h, by simp, fun _ => by simp⟩
      · cases h
  | anyc =>
    intro f s pw k n h
    cases s with
    | nil => rw [reRun] at h; cases h
    | cons x xs =>
      rw [reRun] at h
      split at h
      · cases h
      · exact ⟨xs, isWordChar x, h, by simp, fun _ => by simp⟩
  | seq a b iha ihb =>
    intro f s pw k n h
    rw [reRun] at h
    obtain ⟨t1, pw1, h1, hle1, hlt1⟩ := iha _ _ _ _ _ h
    obtain ⟨t2, pw2, h2, hle2, hlt2⟩ := ihb _ _ _ _ _ h1
    refine ⟨t2, pw2, h2, by omega, ?_⟩
    intro hc
    simp only [needsChar, Bool.or_eq_true] at hc
    rcases hc with hc | hc
    · have := hlt1 hc
      omega
    · have := hlt2 hc
      omega
  | alt a b iha ihb =>
    intro f s pw k n h
    rw [reRun] at h
    cases ha : reRun f a s pw k with
    | some n2 =>
      rw [ha] at h
      dsimp only at h
      cases h
      obtain ⟨t1, pw1, h1, hle1, hlt1⟩ := iha _ _ _ _ _ ha
      refine ⟨t1, pw1, h1, hle1, ?_⟩
      intro hc
      simp only [needsChar, Bool.and_eq_true] at hc
      exact hlt1 hc.1
    | none =>
      rw [ha] at h
      dsimp only at h
      obtain ⟨t1, pw1, h1, hle1, hlt1⟩ := ihb _ _ _ _ _ h
      refine ⟨t1, pw1, h1, hle1, ?_⟩
      intro hc
      simp only [needsChar, Bool.and_eq_true] at hc
      exact hlt1 hc.2
  | star a iha =>
    intro f s pw k n h
    rw [reRun] at h
    obtain ⟨t, pw2, hk, hle⟩ := reStarLoop_calls _
      (fun s1 pw1 k1 n1 h1 => by
        obtain ⟨t1, pwx, hx, hlex, -⟩ := iha _ _ _ _ _ h1
        exact ⟨t1, pwx, hx, hlex⟩) _ _ _ _ _ h
    exact ⟨t, pw2, hk, hle, by intro hc; simp [needsChar] at hc⟩

theorem reStarLoop_embed (v : List Char)
    (runA runA' : List Char → Bool → (List Char → Bool → Option Nat) → Option Nat)
    (hQ : ∀ s pw k k2,
      (∀ t pw2 n0, k t pw2 = some n0 → ∃ n2, k2 (t ++ v) pw2 = some n2) →
      ∀ n0, runA s pw k = some n0 → ∃ n2, runA' (s ++ v) pw k2 = some n2) :
    ∀ f f2, f ≤ f2 → ∀ s pw k k2,
      (∀ t pw2 n0, k t pw2 = some n0 → ∃ n2, k2 (t ++ v) pw2 = some n2) →
      ∀ n, reStarLoop runA f s pw k = some n →
        ∃ n2, reStarLoop runA' f2 (s ++ v) pw k2 = some n2 := by
  intro f f2 hff
  induction f2 generalizing f with
  | zero =>
    intro s pw k k2 hk n h
    have hf0 : f = 0 := Nat.le_zero.mp hff
    subst hf0
    rw [reStarLoop] at h
    rw [reStarLoop]
    exact hk s pw n h
  | succ f2 ih =>
    intro s pw k k2 hk n h
    have hkv : ∀ n0, k s pw = some n0 →
        ∃ n2, reStarLoop runA' (f2 + 1) (s ++ v) pw k2 = some n2 := by
      intro n0 h0
      obtain ⟨n2, h2⟩ := hk s pw n0 h0
      rw [reStarLoop]
      cases hA : runA' (s ++ v) pw (fun s1 pw1 =>
          if s1.length < (s ++ v).length then reStarLoop runA' f2 s1 pw1 k2
          else none) with
      | some n3 => exact ⟨n3, rfl⟩
      | none => exact ⟨n2, h2⟩
    cases f with
    | zero =>
      rw [reStarLoop] at h
      exact hkv n h
    | succ f1 =>
      have hff1 : f1 ≤ f2 := Nat.succ_le_succ_iff.mp hff
      rw [reStarLoop] at h
      cases hA : runA s pw (fun s1 pw1 =>
          if s1.length < s.length then reStarLoop runA f1 s1 pw1 k
          else none) with
      | none =>
        rw [hA] at h
        dsimp only at h
        exact hkv n h
      | some n1 =>
        have hinner : ∀ t pw2 n0,
            (if t.length < s.length then reStarLoop runA f1 t pw2 k else none) =
              some n0 →
            ∃ n2, (if (t ++ v).length < (s ++ v).length then
                reStarLoop runA' f2 (t ++ v) pw2 k2 else none) = some n2 := by
          intro t pw2 n0 h0
          split at h0
          · rename_i hlt
            obtain ⟨n2, h2⟩ := ih f1 hff1 t pw2 k k2 hk n0 h0
            refine ⟨n2, ?_⟩
            rw [if_pos (by simp only [List.length_append]; omega)]
            exact h2
          · cases h0
        obtain ⟨n2, h2⟩ := hQ s pw
          (fun s1 pw1 =>
            if s1.length < s.length then reStarLoop runA f1 s1 pw1 k else none)
          (fun s1 pw1 =>
            if s1.length < (s ++ v).length then reStarLoop runA' f2 s1 pw1 k2
            else none)
          hinner n1 hA
        refine ⟨n2, ?_⟩
        rw [reStarLoop, h2]

theorem reRun_embed (v : List Char) (hv : headIsWord v = false) (r : RE) :
    ∀ f f2, f ≤ f2 → ∀ s pw k k2,
      (∀ t pw2 n0, k t pw2 = some n0 → ∃ n2, k2 (t ++ v) pw2 = some n2) →
      ∀ n, reRun f r s pw k = some n →
        ∃ n2, reRun f2 r (s ++ v) pw k2 = some n2 := by
  induction r with
  | eps =>
    intro f f2 hff s pw k k2 hk n h
    rw [reRun] at h
    rw [reRun]
    exact hk s pw n h
  | wb =>
    intro f f2 hff s pw k k2 hk n h
    rw [reRun] at h
    split at h
    · rename_i hb
      rw [reRun]
      rw [if_pos (by rw [atBoundary, headIsWord_append s v hv]; exact hb)]
      exact hk s pw n h
    · cases h
  | lit c =>
    intro f f2 hff s pw k k2 hk n h
    cases s with
    | nil => rw [reRun] at h; cases h
    | cons x xs =>
      rw [reRun] at h
      split at h
      · rename_i hx
        show ∃ n2, reRun f2 (.lit c) (x :: (xs ++ v)) pw k2 = some n2
        rw [reRun]
        rw [if_pos hx]
        exact hk xs (isWordChar x) n h
      · cases h
  | cls cs =>
    intro f f2 hff s pw k k2 hk n h
    cases s with
    | nil => rw [reRun] at h; cases h
    | cons x xs =>
      rw [reRun] at h
      split at h
      · rename_i hx
        show ∃ n2, reRun f2 (.cls cs) (x :: (xs ++ v)) pw k2 = some n2
        rw [reRun]
        rw [if_pos hx]
        exact hk xs (isWordChar x) n h
      · cases h
  | anyc =>
    intro f f2 hff s pw k k2 hk n h
    cases s with
    | nil => rw [reRun] at h; cases h
    | cons x xs =>
      rw [reRun] at h
      split at h
      · cases h
      · rename_i hx
        show ∃ n2, reRun f2 .anyc (x :: (xs ++ v)) pw k2 = some n2
        rw [reRun]
        rw [if_neg hx]
        exact hk xs (isWordChar x) n h
  | seq a b iha ihb =>
    intro f f2 hff s pw k k2 hk n h
    rw [reRun] at h
    rw [reRun]
    refine iha f f2 hff s pw _ _ ?_ n h
    intro t pw2 n0 h0
    exact ihb f f2 hff t pw2 k k2 hk n0 h0
  | alt a b iha ihb =>
    intro f f2 hff s pw k k2 hk n h
    rw [reRun] at h
    rw [reRun]
    cases hA2 : reRun f2 a (s ++ v) pw k2 with
    | some n3 => exact ⟨n3, rfl⟩
    | none =>
      dsimp only
      cases hA : reRun f a s pw k with
      | some n1 =>
        obtain ⟨n2, h2⟩ := iha f f2 hff s pw k k2 hk n1 hA
        rw [h2] at hA2
        cases hA2
      | none =>
        rw [hA] at h
        dsimp only at h
        exact ihb f f2 hff s pw k k2 hk n h
  | star a iha =>
    intro f f2 hff s pw k k2 hk n h
    rw [reRun] at h
    rw [reRun]
    refine reStarLoop_embed v _ _ ?_ f f2 hff s pw k k2 hk n h
    intro s0 pw0 k0 k02 hk0 n0 h0
    exact iha f f2 hff s0 pw0 k0 k02 hk0 n0 h0

theorem prevW_nil (pw : Bool) : prevW pw [] = pw := rfl

theorem prevW_cons (pw : Bool) (c : Char) (u : List Char) :
    prevW pw (c :: u) = prevW (isWordChar c) u := by
  cases u with
  | nil => rfl
  | cons d u2 =>
    unfold prevW
    rw [List.getLast?_cons_cons]
    cases hl : (d :: u2).getLast? with
    | none => simp at hl
    | some e => rfl

theorem prevW_append_front (A u : List Char)
    (hA : A = [] ∨ ∃ A2, A = A2 ++ [' ']) :
    prevW false (A ++ u) = prevW false u := by
  rcases hA with hA | ⟨A2, hA⟩
  · rw [hA, List.nil_append]
  · subst hA
    cases u with
    | nil =>
      simp only [List.append_nil]
      unfold prevW
      rw [List.getLast?_concat]
      rfl
    | cons c u2 =>
      unfold prevW
      rw [List.getLast?_append_of_ne_nil _ (by simp : (c :: u2 : List Char) ≠ [])]

theorem reSearchFrom_inv (r : RE) :
    ∀ s pw m, reSearchFrom r s pw = some m →
      ∃ u s2, s = u ++ s2 ∧ reTryAt r s2 (prevW pw u) = some m := by
  intro s
  induction s with
  | nil =>
    intro pw m h
    rw [reSearchFrom] at h
    cases ht : reTryAt r [] pw with
    | some m2 =>
      rw [ht] at h
      dsimp only at h
      cases h
      exact ⟨[], [], rfl, ht⟩
    | none =>
      rw [ht] at h
      dsimp only at h
      cases h
  | cons c rest ih =>
    intro pw m h
    rw [reSearchFrom] at h
    cases ht : reTryAt r (c :: rest) pw with
    | some m2 =>
      rw [ht] at h
      dsimp only at h
      cases h
      exact ⟨[], c :: rest, rfl, ht⟩
    | none =>
      rw [ht] at h
      dsimp only at h
      obtain ⟨u2, s2, hsplit, htry⟩ := ih (isWordChar c) m h
      refine ⟨c :: u2, s2, by rw [List.cons_append, ← hsplit], ?_⟩
      rw [prevW_cons]
      exact htry

theorem reSearchFrom_of_tryAt (r : RE) :
    ∀ u s2 pw m, reTryAt r s2 (prevW pw u) = some m →
      ∃ m2, reSearchFrom r (u ++ s2) pw = some m2 := by
  intro u
  induction u with
  | nil =>
    intro s2 pw m h
    rw [prevW_nil] at h
    rw [List.nil_append]
    cases s2 with
    | nil =>
      rw [reSearchFrom, h]
      exact ⟨m, rfl⟩
    | cons c rest =>
      rw [reSearchFrom, h]
      exact ⟨m, rfl⟩
  | cons c u2 ih =>
    intro s2 pw m h
    rw [List.cons_append, reSearchFrom]
    cases ht : reTryAt r (c :: (u2 ++ s2)) pw with
    | some m3 => exact ⟨m3, rfl⟩
    | none =>
      dsimp only
      rw [prevW_cons] at h
      exact ih s2 (isWordChar c) m h

theorem reTryAt_embed (r : RE) (s v : List Char) (pw : Bool)
    (hv : headIsWord v = false) (m : List Char)
    (h : reTryAt r s pw = some m) :
    ∃ m2, reTryAt r (s ++ v) pw = some m2 := by
  rw [reTryAt] at h
  cases hr : reRun (reFuel s) r s pw (fun t _ => some t.length) with
  | none => rw [hr] at h; cases h
  | some remLen =>
    have hff : reFuel s ≤ reFuel (s ++ v) := by
      simp only [reFuel, List.length_append]
      omega
    obtain ⟨n2, h2⟩ := reRun_embed v hv r (reFuel s) (reFuel (s ++ v)) hff s pw
      (fun t _ => some t.length) (fun t _ => some t.length)
      (fun t pw2 n0 h0 => ⟨(t ++ v).length, rfl⟩) remLen hr
    rw [reTryAt, h2]
    exact ⟨_, rfl⟩

theorem reTryAt_ne_nil (r : RE) (hc : needsChar r = true) (s : List Char)
    (pw : Bool) (m : List Char) (h : reTryAt r s pw = some m) : m ≠ [] := by
  rw [reTryAt] at h
  cases hr : reRun (reFuel s) r s pw (fun t _ => some t.length) with
  | none => rw [hr] at h; cases h
  | some remLen =>
    rw [hr] at h
    dsimp only at h
    cases h
    obtain ⟨t, pw2, hk, hle, hlt⟩ := reRun_calls r _ _ _ _ _ hr
    cases hk
    have hlen := hlt hc
    intro hnil
    have hlen2 : (s.take (s.length - t.length)).length = 0 := by
      rw [hnil]
      rfl
    rw [List.length_take] at hlen2
    omega

theorem reSearchFrom_ne_nil (r : RE) (hc : needsChar r = true) :
    ∀ s pw m, reSearchFrom r s pw = some m → m ≠ [] := by
  intro s
  induction s with
  | nil =>
    intro pw m h
    rw [reSearchFrom] at h
    cases ht : reTryAt r [] pw with
    | some m2 =>
      rw [ht] at h
      dsimp only at h
      cases h
      exact reTryAt_ne_nil r hc [] pw _ ht
    | none =>
      rw [ht] at h
      dsimp only at h
      cases h
  | cons c rest ih =>
    intro pw m h
    rw [reSearchFrom] at h
    cases ht : reTryAt r (c :: rest) pw with
    | some m2 =>
      rw [ht] at h
      dsimp only at h
      cases h
      exact reTryAt_ne_nil r hc (c :: rest) pw _ ht
    | none =>
      rw [ht] at h
      dsimp only at h
      exact ih (isWordChar c) m h

theorem reSearchFrom_embed (r : RE) (NT A B : List Char)
    (hA : A = [] ∨ ∃ A2, A = A2 ++ [' ']) (hB : headIsWord B = false)
    (m : List Char) (h : reSearchFrom r NT false = some m) :
    ∃ m2, reSearchFrom r (A ++ NT ++ B) false = some m2 := by
  obtain ⟨u, s2, hsplit, htry⟩ := reSearchFrom_inv r NT false m h
  obtain ⟨m1, htry2⟩ := reTryAt_embed r s2 B (prevW false u) hB m htry
  have htry3 : reTryAt r (s2 ++ B) (prevW false (A ++ u)) = some m1 := by
    rw [prevW_append_front A u hA]
    exact htry2
  obtain ⟨m2, hs⟩ := reSearchFrom_of_tryAt r (A ++ u) (s2 ++ B) false m1 htry3
  refine ⟨m2, ?_⟩
  have heq : A ++ NT ++ B = (A ++ u) ++ (s2 ++ B) := by
    rw [hsplit]
    simp [List.append_assoc]
  rw [heq]
  exact hs

theorem needsChar_all :
    ((SELF_HARM_PATTERNS ++ ILLEGAL_HARM_PATTERNS).all needsChar) = true := by
  rfl

theorem firstPatternHit_inv :
    ∀ ps src m, firstPatternHit ps src = some m →
      ∃ p, p ∈ ps ∧ reSearchFrom p src false = some m := by
  intro ps
  induction ps with
  | nil =>
    intro src m h
    rw [firstPatternHit] at h
    cases h
  | cons p rest ih =>
    intro src m h
    rw [firstPatternHit] at h
    cases hs : reSearchFrom p src false with
    | some m0 =>
      rw [hs] at h
      dsimp only at h
      split at h
      · obtain ⟨p2, hp2, hs2⟩ := ih src m h
        exact ⟨p2, List.mem_cons_of_mem _ hp2, hs2⟩
      · cases h
        exact ⟨p, List.mem_cons_self _ _, hs⟩
    | none =>
      rw [hs] at h
      dsimp only at h
      obtain ⟨p2, hp2, hs2⟩ := ih src m h
      exact ⟨p2, List.mem_cons_of_mem _ hp2, hs2⟩

theorem firstPatternHit_exists :
    ∀ ps : List RE, (∀ p ∈ ps, needsChar p = true) →
      ∀ p0, p0 ∈ ps → ∀ (src m0 : List Char),
        reSearchFrom p0 src false = some m0 →
        ∃ m, firstPatternHit ps src = some m := by
  intro ps
  induction ps with
  | nil =>
    intro _ p0 hp0
    cases hp0
  | cons p rest ih =>
    intro hall p0 hp0 src m0 h0
    rw [firstPatternHit]
    cases hs : reSearchFrom p src false with
    | some m =>
      have hne : m ≠ [] :=
        reSearchFrom_ne_nil p (hall p (List.mem_cons_self _ _)) src false m hs
      dsimp only
      rw [if_neg hne]
      exact ⟨m, rfl⟩
    | none =>
      dsimp only
      rcases List.mem_cons.mp hp0 with hp | hp
      · subst hp
        rw [h0] at hs
        cases hs
      · exact ih (fun p2 h2 => hall p2 (List.mem_cons_of_mem _ h2)) p0 hp src m0 h0

theorem firstRuleHit_inv :
    ∀ rules src rc m, firstRuleHit rules src = some (rc, m) →
      ∃ ps, (rc, ps) ∈ rules ∧ firstPatternHit ps src = some m := by
  intro rules
  induction rules with
  | nil =>
    intro src rc m h
    rw [firstRuleHit] at h
    cases h
  | cons rule rest ih =>
    intro src rc m h
    obtain ⟨rc1, ps1⟩ := rule
    rw [firstRuleHit] at h
    cases hh : firstPatternHit ps1 src with
    | some m1 =>
      rw [hh] at h
      dsimp only at h
      cases h
      exact ⟨ps1, List.mem_cons_self _ _, hh⟩
    | none =>
      rw [hh] at h
      dsimp only at h
      obtain ⟨ps, hm, hh2⟩ := ih src rc m h
      exact ⟨ps, List.mem_cons_of_mem _ hm, hh2⟩

theorem firstRuleHit_exists :
    ∀ (rules : List (CriticalSafetyReasonCode × List RE)) (src : List Char)
      (rc : CriticalSafetyReasonCode) (ps : List RE) (m : List Char),
      (rc, ps) ∈ rules → firstPatternHit ps src = some m →
      ∃ out, firstRuleHit rules src = some out := by
  intro rules
  induction rules with
  | nil =>
    intro src rc ps m hmem
    cases hmem
  | cons rule rest ih =>
    intro src rc ps m hmem hhit
    obtain ⟨rc1, ps1⟩ := rule
    rw [firstRuleHit]
    cases hh : firstPatternHit ps1 src with
    | some m1 => exact ⟨(rc1, m1), rfl⟩
    | none =>
      dsimp only
      rcases List.mem_cons.mp hmem with heq | hmem2
      · rw [Prod.mk.injEq] at heq
        obtain ⟨h1, h2⟩ := heq
        subst h1
        subst h2
        rw [hhit] at hh
        cases hh
      · exact ih src rc ps m hmem2 hhit

theorem detect_embed (T E : List Char) (L R : List (List Char))
    (hm : (detectCriticalTeacherRequiredEvidence T).matched = true) :
    (detectCriticalTeacherRequiredEvidence
      (jsTrim (E ++ '\n' :: joinNl (L ++ T :: R)))).matched = true := by
  obtain ⟨rc, mm, heq, hmne, hrule, hsrc⟩ := detect_matched_shape hm
  obtain ⟨ps, hpsmem, hhit⟩ :=
    firstRuleHit_inv TRIGGER_RULES (normalizeText T) rc mm hrule
  obtain ⟨p, hpmem, hsearch⟩ := firstPatternHit_inv ps (normalizeText T) mm hhit
  obtain ⟨A, B, hdecomp, hA, hB⟩ := normalize_decomp E T L R hsrc
  obtain ⟨m2, hsearch2⟩ :=
    reSearchFrom_embed p (normalizeText T) A B hA hB mm hsearch
  have hall : ∀ q ∈ ps, needsChar q = true := by
    intro q hq
    have h2 := List.all_eq_true.mp needsChar_all
    have hmem2 : (rc, ps) ∈
        [(CriticalSafetyReasonCode.self_harm_intent_or_plan, SELF_HARM_PATTERNS),
         (CriticalSafetyReasonCode.serious_illegal_harm_intent_or_plan,
          ILLEGAL_HARM_PATTERNS)] := hpsmem
    rcases List.mem_cons.mp hmem2 with he | hrest
    · rw [Prod.mk.injEq] at he
      rw [he.2] at hq
      exact h2 q (List.mem_append.mpr (Or.inl hq))
    · rcases List.mem_cons.mp hrest with he | hnil
      · rw [Prod.mk.injEq] at he
        rw [he.2] at hq
        exact h2 q (List.mem_append.mpr (Or.inr hq))
      · cases hnil
  obtain ⟨mfull, hfull⟩ := firstPatternHit_exists ps hall p hpmem
    (A ++ normalizeText T ++ B) m2 hsearch2
  obtain ⟨out, hout⟩ := firstRuleHit_exists TRIGGER_RULES
    (A ++ normalizeText T ++ B) rc ps mfull hpsmem hfull
  have hne : A ++ normalizeText T ++ B ≠ [] := by
    intro hx
    rw [List.append_eq_nil, List.append_eq_nil] at hx
    exact hsrc hx.1.2
  unfold detectCriticalTeacherRequiredEvidence
  dsimp only
  rw [hdecomp, if_neg hne, hout]

theorem evaluateEvent_student (m : ConvMap) (event : ConversationEvent)
    (resp : ModelResponse) (elapsed : Nat)
    (hty : event.type = .STUDENT_UTTERANCE) :
    evaluateEvent m event resp elapsed =
      (let existing1 := postTranscriptState m event
       let m1 := mapSet m event.conversationId existing1
       let criticalMatch := detectCriticalTeacherRequiredEvidence
         (combinedDetectInput m event)
       match criticalMatch.matched, criticalMatch.reasonCode with
       | true, some rc =>
         ({ studentId := event.studentId
            conversationId := event.conversationId
            utteranceId := event.utteranceId
            safetyOutcome := .TEACHER_REQUIRED
            teacherNotifyNow := true
            shouldEndConversation := true
            reasonCode := rcStr rc
            confidence := 1
            latencyMs := none
            studentNotice :=
              some "Teacher has been notified to check in privately.".data
            teacherNotice :=
              some (criticalTeacherNotice criticalMatch.evidenceQuote) },
          m1)
       | _, _ => (evaluateWithModel event existing1 resp elapsed, m1)) := by
  unfold evaluateEvent postTranscriptState combinedDetectInput
  rw [hty]
  rfl

/-- Claim C10: the worker's deterministic short-circuit scans the event text
concatenated with every retained student-role transcript turn, so whenever the
rolling window right after the append contains a student turn matched by the
Critical Phrase Detector, evaluateEvent on a STUDENT_UTTERANCE event of that
conversation returns safetyOutcome TEACHER_REQUIRED with the detector's
reasonCode, confidence 1, shouldEndConversation true and teacherNotifyNow
true, and the result is independent of the model response and elapsed time:
the external model is never consulted, even when the new utterance itself
contains no critical phrase. -/
theorem c10_hard_trigger (m : ConvMap) (event : ConversationEvent)
    (resp resp2 : ModelResponse) (elapsed elapsed2 : Nat)
    (hty : event.type = .STUDENT_UTTERANCE)
    (turn : TranscriptTurn)
    (hmem : turn ∈ (postTranscriptState m event).transcript)
    (hrole : turn.role = .Student)
    (hdet : (detectCriticalTeacherRequiredEvidence turn.text).matched = true) :
    (evaluateEvent m event resp elapsed).1.safetyOutcome = .TEACHER_REQUIRED ∧
    (∃ rc, (detectCriticalTeacherRequiredEvidence
        (combinedDetectInput m event)).reasonCode = some rc ∧
      (evaluateEvent m event resp elapsed).1.reasonCode = rcStr rc) ∧
    (evaluateEvent m event resp elapsed).1.confidence = 1 ∧
    (evaluateEvent m event resp elapsed).1.shouldEndConversation = true ∧
    (evaluateEvent m event resp elapsed).1.teacherNotifyNow = true ∧
    evaluateEvent m event resp elapsed = evaluateEvent m event resp2 elapsed2 := by
  have hM : (detectCriticalTeacherRequiredEvidence
      (combinedDetectInput m event)).matched = true := by
    have hmem2 : turn.text ∈
        (((postTranscriptState m event).transcript.filter
          (fun t => t.role == TurnRole.Student)).map (fun t => t.text)) := by
      refine List.mem_map.mpr ⟨turn, ?_, rfl⟩
      refine List.mem_filter.mpr ⟨hmem, ?_⟩
      rw [hrole]
      rfl
    obtain ⟨L, R, hLR⟩ := List.append_of_mem hmem2
    rw [combinedDetectInput, hLR]
    exact detect_embed turn.text (jsOrStr event.text []) L R hdet
  obtain ⟨rc, q, hshape, hqne⟩ := detect_matched_fields hM
  have hE := evaluateEvent_student m event resp elapsed hty
  have hE2 := evaluateEvent_student m event resp2 elapsed2 hty
  rw [hE, hE2, hshape]
  exact ⟨rfl, ⟨rc, rfl, rfl⟩, rfl, rfl, rfl, rfl⟩

theorem c10_hard_trigger_witness :
    (evaluateEvent [("c1".data, ⟨"s1".data,
        [⟨TurnRole.Student, "i want to die".data⟩]⟩)]
      ⟨.STUDENT_UTTERANCE, .STUDENT, "s1".data, "c1".data, 3, some "ok".data⟩
      .callFailed 5).1.safetyOutcome = .TEACHER_REQUIRED ∧
    (∃ rc, (detectCriticalTeacherRequiredEvidence
        (combinedDetectInput [("c1".data, ⟨"s1".data,
            [⟨TurnRole.Student, "i want to die".data⟩]⟩)]
          ⟨.STUDENT_UTTERANCE, .STUDENT, "s1".data, "c1".data, 3,
           some "ok".data⟩)).reasonCode = some rc ∧
      (evaluateEvent [("c1".data, ⟨"s1".data,
          [⟨TurnRole.Student, "i want to die".data⟩]⟩)]
        ⟨.STUDENT_UTTERANCE, .STUDENT, "s1".data, "c1".data, 3, some "ok".data⟩
        .callFailed 5).1.reasonCode = rcStr rc) ∧
    (evaluateEvent [("c1".data, ⟨"s1".data,
        [⟨TurnRole.Student, "i want to die".data⟩]⟩)]
      ⟨.STUDENT_UTTERANCE, .STUDENT, "s1".data, "c1".data, 3, some "ok".data⟩
      .callFailed 5).1.confidence = 1 ∧
    (evaluateEvent [("c1".data, ⟨"s1".data,
        [⟨TurnRole.Student, "i want to die".data⟩]⟩)]
      ⟨.STUDENT_UTTERANCE, .STUDENT, "s1".data, "c1".data, 3, some "ok".data⟩
      .callFailed 5).1.shouldEndConversation = true ∧
    (evaluateEvent [("c1".data, ⟨"s1".data,
        [⟨TurnRole.Student, "i want to die".data⟩]⟩)]
      ⟨.STUDENT_UTTERANCE, .STUDENT, "s1".data, "c1".data, 3, some "ok".data⟩
      .callFailed 5).1.teacherNotifyNow = true ∧
    evaluateEvent [("c1".data, ⟨"s1".data,
        [⟨TurnRole.Student, "i want to die".data⟩]⟩)]
      ⟨.STUDENT_UTTERANCE, .STUDENT, "s1".data, "c1".data, 3, some "ok".data⟩
      .callFailed 5 =
    evaluateEvent [("c1".data, ⟨"s1".data,
        [⟨TurnRole.Student, "i want to die".data⟩]⟩)]
      ⟨.STUDENT_UTTERANCE, .STUDENT, "s1".data, "c1".data, 3, some "ok".data⟩
      .invalidJson 7 :=
  c10_hard_trigger
    [("c1".data, ⟨"s1".data, [⟨TurnRole.Student, "i want to die".data⟩]⟩)]
    ⟨.STUDENT_UTTERANCE, .STUDENT, "s1".data, "c1".data, 3, some "ok".data⟩
    .callFailed .invalidJson 5 7 rfl
    ⟨TurnRole.Student, "i want to die".data⟩
    (by decide) rfl (by rfl)
